import Mathlib

set_option maxRecDepth 8000
set_option maxHeartbeats 1000000

/-!
Verification of the Rigol DS1000E waveform file parser (`wfm/src/parser.rs`,
`wfm/src/parser/ds1000e.rs`).  The nom streaming combinators are modelled as
cursor parsers over a byte list: a parser takes the input list and a start
offset and returns either a value together with the next offset, `incomplete`
(nom's `Err::Incomplete`) or `error` (nom's `Err::Error`).  `u32` arithmetic
uses explicit wrap-around mod 2^32 (release-build semantics of the Rust `-`
operator); `f32` values are carried as 32-bit patterns (`Nat`) with exact
IEEE-754 binary32 multiply / divide / copysign round-to-nearest-even
semantics.
-/

namespace Rigol

abbrev Byte := Fin 256

/-- Outcome of a streaming parser step: mirrors nom's `Ok` / `Err::Incomplete`
/ `Err::Error`. -/
inductive POut (α : Type) where
  | ok (a : α)
  | incomplete
  | error
deriving DecidableEq

/-- A parser reads the byte list from a cursor offset and yields a value plus
the new offset (the cursor models nom's remaining-slice threading). -/
abbrev Parser (α : Type) := List Byte → Nat → POut (α × Nat)

/-- Read `k` bytes starting at `off`; `none` when the list is too short. -/
def readBytes (l : List Byte) (off : Nat) : Nat → Option (List Byte)
  | 0 => some []
  | k + 1 =>
    match l[off]? with
    | some b => (readBytes l (off + 1) k).map (b :: ·)
    | none => none

/-- nom's streaming `take!(k)`. -/
def pTake (k : Nat) : Parser (List Byte) := fun l off =>
  match readBytes l off k with
  | some bs => .ok (bs, off + k)
  | none => .incomplete

/-- Little-endian value of a byte list. -/
def leVal : List Byte → Nat
  | [] => 0
  | b :: t => b.val + 256 * leVal t

/-- nom's `map!`. -/
def pmap {α β : Type} (f : α → β) (P : Parser α) : Parser β := fun l off =>
  match P l off with
  | .ok (a, o) => .ok (f a, o)
  | .incomplete => .incomplete
  | .error => .error

/-- nom's streaming `u8`. -/
def pU8 : Parser Nat := pmap leVal (pTake 1)

/-- nom's streaming `le_u16`. -/
def pU16 : Parser Nat := pmap leVal (pTake 2)

/-- nom's streaming `le_u32`. -/
def pU32 : Parser Nat := pmap leVal (pTake 4)

/-- nom's streaming `le_f32`: the four little-endian bytes are kept as the raw
binary32 bit pattern (every pattern is a valid `f32`, so this never errors). -/
def pF32 : Parser Nat := pmap leVal (pTake 4)

/-- Two's-complement reinterpretation of a `w`-bit unsigned value. -/
def toSigned (w v : Nat) : Int :=
  if v < 2 ^ (w - 1) then (v : Int) else (v : Int) - 2 ^ w

/-- nom's streaming `le_i16`. -/
def pI16 : Parser Int := pmap (fun bs => toSigned 16 (leVal bs)) (pTake 2)

/-- nom's streaming `le_i32`. -/
def pI32 : Parser Int := pmap (fun bs => toSigned 32 (leVal bs)) (pTake 4)

/-- nom's streaming `le_i64`. -/
def pI64 : Parser Int := pmap (fun bs => toSigned 64 (leVal bs)) (pTake 8)

/-- Helper for `pTag`: walk the expected bytes; a mismatch within the
available input is an error, running out of input first is incomplete
(nom streaming `tag!` semantics). -/
def pTagGo : List Byte → List Byte → Nat → POut Nat
  | [], _, off => .ok off
  | b :: t, l, off =>
    match l[off]? with
    | none => .incomplete
    | some c => if c = b then pTagGo t l (off + 1) else .error

/-- nom's streaming `tag!`. -/
def pTag (tag : List Byte) : Parser (List Byte) := fun l off =>
  match pTagGo tag l off with
  | .ok o => .ok (tag, o)
  | .incomplete => .incomplete
  | .error => .error

/-- Parser `pure`. -/
def ppure {α : Type} (a : α) : Parser α := fun _ off => .ok (a, off)

/-- Parser sequencing (nom's `tuple!` threading). -/
def pbind {α β : Type} (P : Parser α) (f : α → Parser β) : Parser β := fun l off =>
  match P l off with
  | .ok (a, o) => f a l o
  | .incomplete => .incomplete
  | .error => .error

/-- nom's `map_opt!` failure stage: a `none` from the mapping closure becomes
a hard parse error. -/
def pofOption {α : Type} : Option α → Parser α
  | some a => ppure a
  | none => fun _ _ => .error

/-- nom's `cond!`: run the parser only when the flag is set, otherwise yield
`none` without consuming anything. -/
def pcond {α : Type} (c : Bool) (P : Parser α) : Parser (Option α) :=
  if c then pmap some P else ppure none

/-- nom's `count!`: run the parser `n` times collecting the results. -/
def pcount {α : Type} (P : Parser α) : Nat → Parser (List α)
  | 0 => ppure []
  | n + 1 => pbind P fun a => pbind (pcount P n) fun as => ppure (a :: as)

/-! ### Exact IEEE-754 binary32 model

`f32` values are 32-bit patterns (`Nat < 2^32`).  Multiplication, division
and int-to-float conversion are defined by exact rational arithmetic (carried
as raw numerator/denominator pairs of `Nat`, so every step is structural and
kernel-computable) followed by round-to-nearest-even, which is the semantics
of the Rust `f32` operations used in `channel_header`. -/

/-- Round `n / d` to the nearest integer, ties to even. -/
def rneDiv (n d : Nat) : Nat :=
  let k := n / d
  let r := n % d
  if 2 * r < d then k
  else if d < 2 * r then k + 1
  else if k % 2 = 0 then k else k + 1

/-- Round `(n / d) * 2^t` to the nearest integer, ties to even. -/
def rneScale (n d : Nat) (t : Int) : Nat :=
  if 0 ≤ t then rneDiv (n * 2 ^ t.toNat) d else rneDiv n (d * 2 ^ (-t).toNat)

/-- Decide `2^e ≤ n / d` for positive `n / d` and integer exponent `e`. -/
def gePow2 (n d : Nat) (e : Int) : Bool :=
  if 0 ≤ e then decide (d * 2 ^ e.toNat ≤ n) else decide (d ≤ n * 2 ^ (-e).toNat)

/-- Fuel-driven floor log2 (structural recursion, so the kernel can reduce
it; `Nat.log2` itself is well-founded and does not). -/
def natLog2Go : Nat → Nat → Nat
  | 0, _ => 0
  | fuel + 1, n => if 2 ≤ n then natLog2Go fuel (n / 2) + 1 else 0

/-- Floor of the base-2 logarithm of a positive `Nat`. -/
def natLog2 (n : Nat) : Nat := natLog2Go n n

/-- Floor of the base-2 logarithm of the positive rational `n / d`. -/
def ratLog2 (n d : Nat) : Int :=
  let e0 : Int := (natLog2 n : Int) - (natLog2 d : Int)
  if gePow2 n d (e0 + 1) then e0 + 1 else if gePow2 n d e0 then e0 else e0 - 1

/-- Round a sign / magnitude (`n / d`) pair to the nearest binary32 bit
pattern (round-to-nearest-even, overflowing to infinity, underflowing
through the subnormal range to signed zero). -/
def roundF32 (sign n d : Nat) : Nat :=
  if n = 0 then sign * 2 ^ 31
  else
    let e := ratLog2 n d
    if e < -126 then sign * 2 ^ 31 + rneScale n d 149
    else
      let m := rneScale n d (23 - e)
      let m2 := if m = 2 ^ 24 then 2 ^ 23 else m
      let e2 := if m = 2 ^ 24 then e + 1 else e
      if 127 < e2 then sign * 2 ^ 31 + 255 * 2 ^ 23
      else sign * 2 ^ 31 + (e2 + 127).toNat * 2 ^ 23 + (m2 - 2 ^ 23)

/-- Classification of a bit pattern: finite (sign and exact magnitude
`n / d`), infinite, or NaN. -/
inductive F32Class where
  | finite (sign n d : Nat)
  | infinite (sign : Nat)
  | nan

/-- Decode a binary32 bit pattern. -/
def f32classify (x : Nat) : F32Class :=
  let s : Nat := x / 2 ^ 31 % 2
  let E : Nat := x / 2 ^ 23 % 2 ^ 8
  let f : Nat := x % 2 ^ 23
  if E = 255 then (if f = 0 then .infinite s else .nan)
  else if E = 0 then .finite s f (2 ^ 149)
  else if 150 ≤ E then .finite s ((2 ^ 23 + f) * 2 ^ (E - 150)) 1
  else .finite s (2 ^ 23 + f) (2 ^ (150 - E))

/-- The canonical quiet NaN pattern. -/
def f32NaN : Nat := 0x7FC00000

/-- Bit pattern of positive infinity with the given sign. -/
def f32Inf (sign : Nat) : Nat := sign * 2 ^ 31 + 255 * 2 ^ 23

/-- IEEE-754 binary32 multiplication on bit patterns. -/
def f32mul (a b : Nat) : Nat :=
  match f32classify a, f32classify b with
  | .nan, _ => f32NaN
  | _, .nan => f32NaN
  | .infinite sa, .infinite sb => f32Inf (sa ^^^ sb)
  | .infinite sa, .finite sb nb _ => if nb = 0 then f32NaN else f32Inf (sa ^^^ sb)
  | .finite sa na _, .infinite sb => if na = 0 then f32NaN else f32Inf (sa ^^^ sb)
  | .finite sa na da, .finite sb nb db => roundF32 (sa ^^^ sb) (na * nb) (da * db)

/-- IEEE-754 binary32 division on bit patterns. -/
def f32div (a b : Nat) : Nat :=
  match f32classify a, f32classify b with
  | .nan, _ => f32NaN
  | _, .nan => f32NaN
  | .infinite _, .infinite _ => f32NaN
  | .infinite sa, .finite sb _ _ => f32Inf (sa ^^^ sb)
  | .finite sa _ _, .infinite sb => (sa ^^^ sb) * 2 ^ 31
  | .finite sa na da, .finite sb nb db =>
    if nb = 0 then (if na = 0 then f32NaN else f32Inf (sa ^^^ sb))
    else roundF32 (sa ^^^ sb) (na * db) (da * nb)

/-- Rust's `f32::copysign`: magnitude of the first argument, sign bit of the
second. -/
def f32copysign (a b : Nat) : Nat := a % 2 ^ 31 + 2 ^ 31 * (b / 2 ^ 31 % 2)

/-- Sign bit of a binary32 pattern. -/
def f32signBit (x : Nat) : Bool := x / 2 ^ 31 % 2 == 1

/-- Conversion `i32 as f32` / `i16 as f32` (round-to-nearest-even). -/
def f32ofInt (i : Int) : Nat :=
  roundF32 (if i < 0 then 1 else 0) i.natAbs 1

/-- Bit pattern of a positive decimal `f32` literal given as the exact
fraction `n / d` it denotes (Rust rounds literals to the nearest binary32). -/
def f32lit (n d : Nat) : Nat := roundF32 0 n d

/-- Bit pattern of a negative decimal `f32` literal `-(n / d)`. -/
def f32litNeg (n d : Nat) : Nat := 2 ^ 31 + roundF32 0 n d

/-! ### `u32` wrap-around arithmetic (Rust release-build semantics) -/

/-- Wrapping `u32` subtraction, for `a < 2^32` and `b ≤ 2^32`. -/
def u32sub (a b : Nat) : Nat := (a + 4294967296 - b) % 4294967296

/-- Wrapping `u32` addition. -/
def u32add (a b : Nat) : Nat := (a + b) % 4294967296

/-! ### Data model (`wfm/src/parser.rs`) -/

/-- Enum `Bandwidth` (`repr(u8)`, maximum ordinal 4). -/
inductive Bandwidth where
  | NoLimit
  | Mhz20
  | Mhz100
  | Mhz200
  | Mhz250
deriving DecidableEq

/-- Discriminant of a `Bandwidth` variant. -/
def Bandwidth.toCode : Bandwidth → Nat
  | .NoLimit => 0
  | .Mhz20 => 1
  | .Mhz100 => 2
  | .Mhz200 => 3
  | .Mhz250 => 4

/-- Rust impl `TryFrom<u8> for Bandwidth` from the numeric-conversion code
generation: codes up to 4 transmute to the variant with that discriminant,
larger codes fail. -/
def Bandwidth.tryFrom (raw : Nat) : Option Bandwidth :=
  if raw ≤ 4 then
    some (match raw with
          | 0 => .NoLimit
          | 1 => .Mhz20
          | 2 => .Mhz100
          | 3 => .Mhz200
          | _ => .Mhz250)
  else none

/-- Enum `Coupling` (maximum ordinal 2). -/
inductive Coupling where
  | Dc
  | Ac
  | Gnd
deriving DecidableEq

/-- Discriminant of a `Coupling` variant. -/
def Coupling.toCode : Coupling → Nat
  | .Dc => 0
  | .Ac => 1
  | .Gnd => 2

/-- Rust impl `TryFrom<u8> for Coupling`: codes up to 2 succeed. -/
def Coupling.tryFrom (raw : Nat) : Option Coupling :=
  if raw ≤ 2 then some (match raw with | 0 => .Dc | 1 => .Ac | _ => .Gnd)
  else none

/-- Enum `Filter` (maximum ordinal 3). -/
inductive Filter where
  | LowPass
  | HighPass
  | BandPass
  | BandReject
deriving DecidableEq

/-- Discriminant of a `Filter` variant. -/
def Filter.toCode : Filter → Nat
  | .LowPass => 0
  | .HighPass => 1
  | .BandPass => 2
  | .BandReject => 3

/-- Rust impl `TryFrom<u8> for Filter`: codes up to 3 succeed. -/
def Filter.tryFrom (raw : Nat) : Option Filter :=
  if raw ≤ 3 then
    some (match raw with | 0 => .LowPass | 1 => .HighPass | 2 => .BandPass | _ => .BandReject)
  else none

/-- Enum `Source` (maximum ordinal 5). -/
inductive Source where
  | Ch1
  | Ch2
  | Ext
  | Ext5
  | AcLine
  | DigCh
deriving DecidableEq

/-- Discriminant of a `Source` variant. -/
def Source.toCode : Source → Nat
  | .Ch1 => 0
  | .Ch2 => 1
  | .Ext => 2
  | .Ext5 => 3
  | .AcLine => 4
  | .DigCh => 5

/-- Rust impl `TryFrom<u8> for Source`: codes up to 5 succeed. -/
def Source.tryFrom (raw : Nat) : Option Source :=
  if raw ≤ 5 then
    some (match raw with
          | 0 => .Ch1
          | 1 => .Ch2
          | 2 => .Ext
          | 3 => .Ext5
          | 4 => .AcLine
          | _ => .DigCh)
  else none

/-- Enum `TriggerMode` (maximum ordinal 6). -/
inductive TriggerMode where
  | Edge
  | Pulse
  | Slope
  | Video
  | Alt
  | Pattern
  | Duration
deriving DecidableEq

/-- Discriminant of a `TriggerMode` variant. -/
def TriggerMode.toCode : TriggerMode → Nat
  | .Edge => 0
  | .Pulse => 1
  | .Slope => 2
  | .Video => 3
  | .Alt => 4
  | .Pattern => 5
  | .Duration => 6

/-- Rust impl `TryFrom<u8> for TriggerMode`: codes up to 6 succeed. -/
def TriggerMode.tryFrom (raw : Nat) : Option TriggerMode :=
  if raw ≤ 6 then
    some (match raw with
          | 0 => .Edge
          | 1 => .Pulse
          | 2 => .Slope
          | 3 => .Video
          | 4 => .Alt
          | 5 => .Pattern
          | _ => .Duration)
  else none

/-- Enum `Unit` (maximum ordinal 3); shadows nothing inside this namespace. -/
inductive Unit where
  | W
  | A
  | V
  | U
deriving DecidableEq

/-- Discriminant of a `Unit` variant. -/
def Unit.toCode : Unit → Nat
  | .W => 0
  | .A => 1
  | .V => 2
  | .U => 3

/-- Rust impl `TryFrom<u8> for Unit`: codes up to 3 succeed. -/
def Unit.tryFrom (raw : Nat) : Option Unit :=
  if raw ≤ 3 then some (match raw with | 0 => .W | 1 => .A | 2 => .V | _ => .U)
  else none

/-- Struct `ChannelHeader`; `f32` fields are bit patterns. -/
structure ChannelHeader where
  scale_display : Int
  shift_display : Int
  probe_value : Nat
  invert_display : Nat
  scale_measured : Int
  shift_measured : Int
  inverted : Bool
  enabled : Bool
  volt_per_division : Nat
  volt_scale : Nat
  volt_offset : Nat
  unit : Unit
deriving DecidableEq

/-- Struct `TimeHeader`. -/
structure TimeHeader where
  scale_display : Int
  offset_display : Int
  sample_rate_hz : Nat
  scale_measured : Int
  offset_measured : Int
deriving DecidableEq

/-- Struct `TriggerHeader`. -/
structure TriggerHeader where
  mode : TriggerMode
  source : Source
  coupling : Coupling
  sweep : Nat
  sens : Nat
  holdoff : Nat
  level : Nat
  direct : Bool
  pulse_type : Nat
  pulse_width : Nat
  slope_type : Nat
  lower : Nat
  slope_width : Nat
  video_pol : Nat
  video_sync : Nat
  video_std : Nat
deriving DecidableEq

/-- Struct `LogicAnalyzerHeader`; `position` models the `[u8; 16]` array. -/
structure LogicAnalyzerHeader where
  enabled : Bool
  active_channel : Nat
  enabled_channels : Nat
  position : List Byte
  group8to15size : Nat
  group0to7size : Nat
deriving DecidableEq

/-- Struct `WaveformHeader` with the three derived fields. -/
structure WaveformHeader where
  adc_mode : Nat
  roll_stop : Nat
  active_channel : Nat
  ch1 : ChannelHeader
  ch2 : ChannelHeader
  time : TimeHeader
  time2 : TimeHeader
  trigger1 : TriggerHeader
  trigger2 : TriggerHeader
  logic : LogicAnalyzerHeader
  ch1_points : Nat
  ch1_skip : Nat
  ch2_points : Nat
deriving DecidableEq

/-- Struct `RawData`: ch1/ch2 sample bytes and logic 16-bit words. -/
structure RawData where
  ch1 : List Byte
  ch2 : List Byte
  logic : List Nat
deriving DecidableEq

/-- Struct `WaveformData`. -/
structure WaveformData where
  header : WaveformHeader
  data : RawData
deriving DecidableEq

/-! ### The DS1000E parsers (`wfm/src/parser/ds1000e.rs`) -/

/-- Mapping closure of `channel_header` (lines 181–223): the underscore
fields of the tuple are the unknown/padding reads and are dropped here, as in
the source. -/
def mkChannelHeader (scale_display shift_display : Int) (probe_value : Nat)
    (invert_display enabled inverted : Nat) (scale_measured shift_measured : Int) :
    ChannelHeader :=
  let inverted : Bool := inverted != 0
  let enabled : Bool := enabled != 0
  let scale_measured_float := f32ofInt scale_measured
  let shift_measured_float := f32ofInt shift_measured
  let volt_per_division :=
    f32copysign (f32mul scale_measured_float probe_value)
      (if inverted then f32litNeg 1 1 else f32lit 1 1)
  let volt_scale := f32div (f32mul (f32mul (f32lit 1 1000000) scale_measured_float) probe_value) (f32lit 25 1)
  let volt_offset := f32mul shift_measured_float volt_scale
  { scale_display, shift_display, probe_value, invert_display, scale_measured,
    shift_measured, inverted, enabled, volt_per_division, volt_scale,
    volt_offset, unit := Unit.V }

/-- Parser `channel_header` (24 bytes). -/
def channel_header : Parser ChannelHeader :=
  pbind pU16 fun _u1 =>
  pbind pI32 fun scale_display =>
  pbind pI16 fun shift_display =>
  pbind pU8 fun _u2 =>
  pbind pU8 fun _u3 =>
  pbind pF32 fun probe_value =>
  pbind pU8 fun invert_display =>
  pbind pU8 fun enabled =>
  pbind pU8 fun inverted =>
  pbind pU8 fun _u4 =>
  pbind pI32 fun scale_measured =>
  pbind pI16 fun shift_measured =>
  ppure (mkChannelHeader scale_display shift_display probe_value invert_display
    enabled inverted scale_measured shift_measured)

/-- Parser `time_header` (36 bytes). -/
def time_header : Parser TimeHeader :=
  pbind pI64 fun scale_display =>
  pbind pI64 fun offset_display =>
  pbind pF32 fun sample_rate_hz =>
  pbind pI64 fun scale_measured =>
  pbind pI64 fun offset_measured =>
  ppure { scale_display, offset_display, sample_rate_hz, scale_measured,
          offset_measured }

/-- Mapping closure of `trigger_header` (lines 273–317): the three leading
codes must decode into their enums, otherwise the whole parse errors
(`map_opt!`). -/
def mkTriggerHeader (mode source coupling sweep sens holdoff level direct
    pulse_type pulse_width slope_type lower slope_width video_pol video_sync
    video_std : Nat) : Option TriggerHeader :=
  match TriggerMode.tryFrom mode, Source.tryFrom source, Coupling.tryFrom coupling with
  | some mode, some source, some coupling =>
    some { mode, source, coupling, sweep, sens, holdoff, level,
           direct := direct != 0, pulse_type, pulse_width, slope_type, lower,
           slope_width, video_pol, video_sync, video_std }
  | _, _, _ => none

/-- Parser `trigger_header` (40 bytes). -/
def trigger_header : Parser TriggerHeader :=
  pbind pU8 fun mode =>
  pbind pU8 fun source =>
  pbind pU8 fun coupling =>
  pbind pU8 fun sweep =>
  pbind (pTake 1) fun _p1 =>
  pbind pF32 fun sens =>
  pbind pF32 fun holdoff =>
  pbind pF32 fun level =>
  pbind pU8 fun direct =>
  pbind pU8 fun pulse_type =>
  pbind (pTake 2) fun _p2 =>
  pbind pF32 fun pulse_width =>
  pbind pU8 fun slope_type =>
  pbind (pTake 3) fun _p3 =>
  pbind pF32 fun lower =>
  pbind pF32 fun slope_width =>
  pbind pU8 fun video_pol =>
  pbind pU8 fun video_sync =>
  pbind pU8 fun video_std =>
  pofOption (mkTriggerHeader mode source coupling sweep sens holdoff level
    direct pulse_type pulse_width slope_type lower slope_width video_pol
    video_sync video_std)

/-- Parser `logic_analyzer_header` (22 bytes); only bit 0 of the enabled byte
is significant. -/
def logic_analyzer_header : Parser LogicAnalyzerHeader :=
  pbind pU8 fun enabled =>
  pbind pU8 fun active_channel =>
  pbind pU16 fun enabled_channels =>
  pbind (pTake 16) fun position =>
  pbind pU8 fun group8to15size =>
  pbind pU8 fun group0to7size =>
  ppure { enabled := (enabled &&& 1) != 0, active_channel, enabled_channels,
          position, group8to15size, group0to7size }

/-- Rolling-mode derivation of `(ch1_points, ch1_skip)` (lines 107–112):
`u32` subtraction wraps mod 2^32 in a release build. -/
def rollDerive (roll_stop ch1_points : Nat) : Nat × Nat :=
  if roll_stop = 0 then (u32sub ch1_points 4, 0)
  else (u32sub (u32sub ch1_points roll_stop) 6, u32add roll_stop 2)

/-- Mapping closure of `waveform_header` (lines 60–160).  The dead local
bindings of the source (`seconds_per_point`, `ch1_volt_length`,
`ch2_volt_length`, `ch1_time_scale/offset`, `ch2_time_scale/offset`) are not
stored in the result and are omitted; the live `?` on the trigger-mode
`try_into` is kept: an out-of-range selector makes the closure return `None`. -/
def mkWaveformHeader (adc_mode roll_stop ch1_points_raw active_channel : Nat)
    (ch1 ch2 : ChannelHeader) (_time_offset : Nat) (time : TimeHeader)
    (logic : LogicAnalyzerHeader) (trigger_mode : Nat)
    (trigger1 trigger2 : TriggerHeader) (ch2_points_raw : Nat)
    (time2 : TimeHeader) (_logic_sample_rate : Nat) : Option WaveformHeader :=
  let p := rollDerive roll_stop ch1_points_raw
  let ch1_points := p.1
  let ch1_skip := p.2
  let ch2_points := if ch1.enabled ∧ ch2_points_raw = 0 then ch1_points else ch2_points_raw
  match TriggerMode.tryFrom trigger_mode with
  | none => none
  | some _tm =>
    some { adc_mode, roll_stop, active_channel, ch1, ch2, time, time2,
           trigger1, trigger2, logic, ch1_points, ch1_skip, ch2_points }

/-- The 4-byte magic tag. -/
def magicTag : List Byte := [0xa5, 0xa5, 0x00, 0x00]

/-- Parser `waveform_header` (lines 33–162): the fixed tuple layout followed
by the map_opt closure. -/
def waveform_header : Parser WaveformHeader :=
  pbind (pTag magicTag) fun _magic =>
  pbind (pTake 12) fun _pad1 =>
  pbind pU8 fun adc_mode =>
  pbind (pTake 3) fun _pad2 =>
  pbind pU32 fun roll_stop =>
  pbind (pTake 4) fun _unused =>
  pbind pU32 fun ch1_points =>
  pbind pU8 fun active_channel =>
  pbind (pTake 1) fun _pad3 =>
  pbind channel_header fun ch1 =>
  pbind channel_header fun ch2 =>
  pbind pU8 fun time_offset =>
  pbind (pTake 1) fun _pad4 =>
  pbind time_header fun time =>
  pbind logic_analyzer_header fun logic =>
  pbind pU8 fun trigger_mode =>
  pbind trigger_header fun trigger1 =>
  pbind trigger_header fun trigger2 =>
  pbind (pTake 6) fun _pad5 =>
  pbind pU32 fun ch2_points =>
  pbind time_header fun time2 =>
  pbind pF32 fun logic_sample_rate =>
  pofOption (mkWaveformHeader adc_mode roll_stop ch1_points active_channel ch1
    ch2 time_offset time logic trigger_mode trigger1 trigger2 ch2_points time2
    logic_sample_rate)

/-- Parser `raw_data` (lines 348–380): conditional per-channel extraction. -/
def raw_data (header : WaveformHeader) : Parser RawData :=
  pbind (pcond header.ch1.enabled
          (pbind (pTake header.ch1_points) fun smps =>
           pbind (pTake header.ch1_skip) fun pad =>
           pbind (pTake 4) fun sentinel =>
           ppure (smps, pad, sentinel))) fun ch1 =>
  pbind (pcond header.ch2.enabled
          (pbind (pTake header.ch2_points) fun smps =>
           pbind (pTake header.ch1_skip) fun pad =>
           pbind (pTake 4) fun sentinel =>
           ppure (smps, pad, sentinel))) fun ch2 =>
  pbind (pcond header.logic.enabled (pcount pU16 header.ch1_points)) fun logic =>
  ppure { ch1 := (ch1.map fun x => x.1).getD []
          ch2 := (ch2.map fun x => x.1).getD []
          logic := logic.getD [] }

/-- Error taxonomy at the `parse` interface: header / payload stage crossed
with nom's incomplete (= spec's Truncated) vs. error outcome. -/
inductive ParseError where
  | headerIncomplete
  | headerError
  | dataIncomplete
  | dataError
deriving DecidableEq

/-- Outcome of `parse`: success, a returned error, or a Rust panic (the
`&input[276..]` slice aborts when the buffer is shorter than 276 bytes). -/
inductive ParseOutcome where
  | ok (w : WaveformData)
  | err (e : ParseError)
  | panic
deriving DecidableEq

/-- Entry point `parse` (lines 21–31): decode the header from the start of
the buffer, then extract raw samples from the slice at byte offset 276. -/
def parse (input : List Byte) : ParseOutcome :=
  match waveform_header input 0 with
  | .ok (header, _) =>
    if 276 ≤ input.length then
      match raw_data header (input.drop 276) 0 with
      | .ok (data, _) => .ok { header, data }
      | .incomplete => .err .dataIncomplete
      | .error => .err .dataError
    else .panic
  | .incomplete => .err .headerIncomplete
  | .error => .err .headerError

/-- Header value of a successful header decode, for stating evaluations. -/
def headerOf (l : List Byte) : Option WaveformHeader :=
  match waveform_header l 0 with
  | .ok (h, _) => some h
  | _ => none

/-- Number of bytes the header decoder consumed, `0` when it failed. -/
def consumedOf (l : List Byte) : Nat :=
  match waveform_header l 0 with
  | .ok (_, e) => e
  | _ => 0

/-- Boolean success test on a parse outcome. -/
def ParseOutcome.isOk : ParseOutcome → Bool
  | .ok _ => true
  | _ => false

/-- Boolean returned-error test on a parse outcome (panic is not an error
value, it is an abort). -/
def ParseOutcome.isErr : ParseOutcome → Bool
  | .err _ => true
  | _ => false

/-! ### Concrete test buffers -/

/-- A byte from a `Nat` (mod 256). -/
def byteOf (v : Nat) : Byte := ⟨v % 256, Nat.mod_lt _ (by omega)⟩

/-- Zero bytes, `n` of them. -/
def zeros (n : Nat) : List Byte := List.replicate n 0

/-- Little-endian 4-byte encoding of a `u32` value. -/
def le4 (v : Nat) : List Byte := [byteOf v, byteOf (v / 256), byteOf (v / 65536), byteOf (v / 16777216)]

/-- Build a 273 + |gap| byte buffer following the fixed header layout, with
chosen roll_stop, raw ch1 point count, channel blocks, trigger-mode selector
byte and raw ch2 point count; everything else zero (all-zero time, logic and
trigger blocks decode fine: code 0 is valid for every enum). -/
def mkBuf (roll raw1 : Nat) (ch1blk ch2blk : List Byte) (sel raw2 : Nat)
    (gap : List Byte) : List Byte :=
  [0xa5, 0xa5, 0, 0] ++ zeros 12 ++ [0] ++ zeros 3 ++ le4 roll ++ zeros 4 ++
  le4 raw1 ++ [1] ++ zeros 1 ++ ch1blk ++ ch2blk ++ [0] ++ zeros 1 ++
  zeros 36 ++ zeros 22 ++ [byteOf sel] ++ zeros 40 ++ zeros 40 ++ zeros 6 ++
  le4 raw2 ++ zeros 36 ++ zeros 4 ++ gap

/-- All-zero channel block: channel disabled. -/
def zeroCh : List Byte := zeros 24

/-- Channel block with only the enabled byte (block offset 15) set. -/
def enCh : List Byte := zeros 15 ++ [1] ++ zeros 8

/-- Channel block with probe_value = 10.0, enabled = 1, inverted = 0,
scale_measured = 1000, shift_measured = 50. -/
def voltCh : List Byte :=
  [0, 0] ++ [0, 0, 0, 0] ++ [0, 0] ++ [0, 0] ++ [0x00, 0x00, 0x20, 0x41] ++
  [0] ++ [1] ++ [0] ++ [0] ++ [0xE8, 0x03, 0, 0] ++ [50, 0]

/-- Same block with the inverted flag byte set. -/
def voltChInv : List Byte :=
  [0, 0] ++ [0, 0, 0, 0] ++ [0, 0] ++ [0, 0] ++ [0x00, 0x00, 0x20, 0x41] ++
  [0] ++ [1] ++ [1] ++ [0] ++ [0xE8, 0x03, 0, 0] ++ [50, 0]

/-- Baseline valid 276-byte buffer: all channels disabled, roll_stop = 0,
raw ch1 count = 4. -/
def bufBase : List Byte := mkBuf 0 4 zeroCh zeroCh 0 0 (zeros 3)

/-- roll_stop = 0, raw ch1 count = 524288. -/
def bufRoll0 : List Byte := mkBuf 0 524288 zeroCh zeroCh 0 0 (zeros 3)

/-- roll_stop = 100, raw ch1 count = 524288. -/
def bufRoll100 : List Byte := mkBuf 100 524288 zeroCh zeroCh 0 0 (zeros 3)

/-- ch1 enabled, raw ch2 count = 300000. -/
def bufCh2NonZero : List Byte := mkBuf 0 4 enCh zeroCh 0 300000 (zeros 3)

/-- ch1 enabled, raw ch2 count = 0, raw ch1 count = 10. -/
def bufCh2Zero : List Byte := mkBuf 0 10 enCh zeroCh 0 0 (zeros 3)

/-- roll_stop = 0 with raw ch1 count = 3: the rolling-mode subtraction
underflows. -/
def bufUnderflow : List Byte := mkBuf 0 3 zeroCh zeroCh 0 0 (zeros 3)

/-- Trigger-mode selector byte (offset 142) set to the invalid code 7. -/
def bufBadSel : List Byte := mkBuf 0 4 zeroCh zeroCh 7 0 (zeros 3)

/-- Like `bufBase` but with bytes 273–275 set to 7. -/
def bufGap7 : List Byte := mkBuf 0 4 zeroCh zeroCh 0 0 [7, 7, 7]

/-- The little-endian 16-bit words formed from `2*n` consecutive bytes, as
produced by `count!(le_u16, n)`. -/
def leWords : Nat → List Byte → List Nat
  | 0, _ => []
  | n + 1, b0 :: b1 :: t => (b0.val + 256 * b1.val) :: leWords n t
  | _ + 1, [] => []
  | _ + 1, [_] => []

/-- The `u32` stored little-endian at byte offset `off`, when present. -/
def readU32 (l : List Byte) (off : Nat) : Option Nat :=
  match pU32 l off with
  | .ok (v, _) => some v
  | _ => none

/-- An all-zero trigger header value (code 0 decodes in every enum family). -/
def testTrig : TriggerHeader :=
  { mode := .Edge, source := .Ch1, coupling := .Dc, sweep := 0, sens := 0,
    holdoff := 0, level := 0, direct := false, pulse_type := 0,
    pulse_width := 0, slope_type := 0, lower := 0, slope_width := 0,
    video_pol := 0, video_sync := 0, video_std := 0 }

/-- An all-zero time header value. -/
def testTime : TimeHeader :=
  { scale_display := 0, offset_display := 0, sample_rate_hz := 0,
    scale_measured := 0, offset_measured := 0 }

/-- A logic-analyzer header with the enabled flag set. -/
def testLogicOn : LogicAnalyzerHeader :=
  { enabled := true, active_channel := 0, enabled_channels := 0,
    position := zeros 16, group8to15size := 0, group0to7size := 0 }

/-- An enabled channel header with zero calibration. -/
def testChOn : ChannelHeader :=
  { scale_display := 0, shift_display := 0, probe_value := 0,
    invert_display := 0, scale_measured := 0, shift_measured := 0,
    inverted := false, enabled := true, volt_per_division := 0,
    volt_scale := 0, volt_offset := 0, unit := .V }

/-- A header exercising all three raw-data channels: ch1/ch2/logic enabled,
`ch1_points = 2`, `ch1_skip = 1`, `ch2_points = 3`. -/
def testHeader : WaveformHeader :=
  { adc_mode := 0, roll_stop := 0, active_channel := 1, ch1 := testChOn,
    ch2 := testChOn, time := testTime, time2 := testTime,
    trigger1 := testTrig, trigger2 := testTrig, logic := testLogicOn,
    ch1_points := 2, ch1_skip := 1, ch2_points := 3 }

/-- Payload for `testHeader`: 2+1+4 ch1 bytes, 3+1+4 ch2 bytes, 4 logic
bytes. -/
def testPayload : List Byte :=
  [10, 11, 12, 13, 14, 15, 16, 20, 21, 22, 23, 24, 25, 26, 27, 30, 31, 32, 33]

/-- Specification bundle for a fixed-size parser: it consumes exactly `k`
bytes on success, its whole outcome depends only on the `k` bytes at the
cursor, and truncating the input strictly inside its window turns a success
into `incomplete` (the nom streaming behaviour). -/
structure PSpec {α : Type} (P : Parser α) (k : Nat) : Prop where
  ok_off : ∀ l off a o, P l off = .ok (a, o) → o = off + k
  dep : ∀ l₁ l₂ off, (∀ i, i < k → l₁[off + i]? = l₂[off + i]?) → P l₁ off = P l₂ off
  short : ∀ l off a o, P l off = .ok (a, o) →
    ∀ n, off ≤ n → n < off + k → P (l.take n) off = .incomplete

/-! ## Theorems -/

theorem readBytes_dep {l₁ l₂ : List Byte} {off k : Nat}
    (h : ∀ i, i < k → l₁[off + i]? = l₂[off + i]?) :
    readBytes l₁ off k = readBytes l₂ off k := by
  induction k generalizing off with
  | zero => rfl
  | succ k ih =>
    unfold readBytes
    have h0 : l₁[off]? = l₂[off]? := by simpa using h 0 (by omega)
    rw [h0, ih (fun i hi => by
      rw [show off + 1 + i = off + (i + 1) by omega]
      exact h (i + 1) (by omega))]

theorem readBytes_some_le {l : List Byte} {off k : Nat} {bs : List Byte}
    (h : readBytes l off (k + 1) = some bs) : off + (k + 1) ≤ l.length := by
  induction k generalizing off bs with
  | zero =>
    unfold readBytes at h
    cases hg : l[off]? with
    | none => rw [hg] at h; cases h
    | some b =>
      have : off < l.length := by
        by_contra hc
        rw [List.getElem?_eq_none (by omega)] at hg
        cases hg
      omega
  | succ k ih =>
    unfold readBytes at h
    cases hg : l[off]? with
    | none => rw [hg] at h; cases h
    | some b =>
      rw [hg] at h
      cases hr : readBytes l (off + 1) (k + 1) with
      | none => rw [hr] at h; cases h
      | some t =>
        have := ih hr
        omega

theorem readBytes_length {l : List Byte} {off k : Nat} {bs : List Byte}
    (h : readBytes l off k = some bs) : bs.length = k := by
  induction k generalizing off bs with
  | zero => unfold readBytes at h; cases h; rfl
  | succ k ih =>
    unfold readBytes at h
    cases hg : l[off]? with
    | none => rw [hg] at h; cases h
    | some b =>
      rw [hg] at h
      cases hr : readBytes l (off + 1) k with
      | none => rw [hr] at h; cases h
      | some t =>
        rw [hr] at h
        cases h
        simp [ih hr]

theorem readBytes_of_le {l : List Byte} {off k : Nat} (h : off + k ≤ l.length) :
    readBytes l off k = some ((l.drop off).take k) := by
  induction k generalizing off with
  | zero => simp [readBytes]
  | succ k ih =>
    unfold readBytes
    have hoff : off < l.length := by omega
    rw [List.getElem?_eq_getElem hoff,
        ih (show off + 1 + k ≤ l.length by omega)]
    rw [List.drop_eq_getElem_cons hoff, List.take_succ_cons]
    rfl

theorem leVal_lt (bs : List Byte) : leVal bs < 256 ^ bs.length := by
  induction bs with
  | nil => simp [leVal]
  | cons b t ih =>
    simp only [leVal, List.length_cons]
    have hb := b.isLt
    rw [pow_succ]
    omega

theorem pTake_spec (k : Nat) : PSpec (pTake k) k := by
  constructor
  · intro l off a o h
    unfold pTake at h
    cases hr : readBytes l off k with
    | some bs => rw [hr] at h; cases h; rfl
    | none => rw [hr] at h; cases h
  · intro l₁ l₂ off hdep
    unfold pTake
    rw [readBytes_dep hdep]
  · intro l off a o h n hn1 hn2
    unfold pTake at h ⊢
    cases hr : readBytes (l.take n) off k with
    | none => rfl
    | some bs =>
      exfalso
      cases k with
      | zero => omega
      | succ k =>
        have h1 := readBytes_some_le hr
        have h2 := List.length_take n l
        omega

theorem pmap_spec {α β : Type} {f : α → β} {P : Parser α} {k : Nat}
    (hP : PSpec P k) : PSpec (pmap f P) k := by
  constructor
  · intro l off a o h
    unfold pmap at h
    cases hr : P l off with
    | ok p =>
      obtain ⟨a0, o0⟩ := p
      rw [hr] at h
      cases h
      exact hP.ok_off _ _ _ _ hr
    | incomplete => rw [hr] at h; cases h
    | error => rw [hr] at h; cases h
  · intro l₁ l₂ off hdep
    unfold pmap
    rw [hP.dep _ _ _ hdep]
  · intro l off a o h n h1 h2
    unfold pmap at h ⊢
    cases hr : P l off with
    | ok p =>
      obtain ⟨a0, o0⟩ := p
      rw [hP.short _ _ _ _ hr n h1 h2]
    | incomplete => rw [hr] at h; cases h
    | error => rw [hr] at h; cases h

theorem ppure_spec {α : Type} (a : α) : PSpec (ppure a) 0 := by
  constructor
  · intro l off b o h
    unfold ppure at h
    cases h
    simp
  · intro _ _ _ _
    rfl
  · intro l off b o h n h1 h2
    omega

theorem pofOption_spec {α : Type} (o : Option α) : PSpec (pofOption o) 0 := by
  cases o with
  | some a => exact ppure_spec a
  | none =>
    constructor
    · intro l off b o2 h
      cases h
    · intro _ _ _ _
      rfl
    · intro l off b o2 h
      cases h

theorem pTagGo_ok {tag l : List Byte} {off o : Nat} (h : pTagGo tag l off = .ok o) :
    o = off + tag.length := by
  induction tag generalizing off with
  | nil =>
    unfold pTagGo at h
    cases h
    simp
  | cons b t ih =>
    unfold pTagGo at h
    cases hg : l[off]? with
    | none => simp only [hg] at h; cases h
    | some c =>
      simp only [hg] at h
      by_cases hc : c = b
      · rw [if_pos hc] at h
        have := ih h
        simp only [List.length_cons]
        omega
      · rw [if_neg hc] at h; cases h

theorem pTagGo_dep {tag l₁ l₂ : List Byte} {off : Nat}
    (h : ∀ i, i < tag.length → l₁[off + i]? = l₂[off + i]?) :
    pTagGo tag l₁ off = pTagGo tag l₂ off := by
  induction tag generalizing off with
  | nil => rfl
  | cons b t ih =>
    unfold pTagGo
    have h0 : l₁[off]? = l₂[off]? := by simpa using h 0 (by simp)
    rw [h0]
    cases hg : l₂[off]? with
    | none => rfl
    | some c =>
      simp only [hg]
      by_cases hc : c = b
      · rw [if_pos hc, if_pos hc]
        exact ih (fun i hi => by
          rw [show off + 1 + i = off + (i + 1) by omega]
          exact h (i + 1) (by simp only [List.length_cons]; omega))
      · rw [if_neg hc, if_neg hc]

theorem pTagGo_short {tag l : List Byte} {off o : Nat} (h : pTagGo tag l off = .ok o) :
    ∀ n, off ≤ n → n < off + tag.length → pTagGo tag (l.take n) off = .incomplete := by
  induction tag generalizing off with
  | nil =>
    intro n h1 h2
    simp only [List.length_nil] at h2
    omega
  | cons b t ih =>
    intro n h1 h2
    unfold pTagGo at h ⊢
    cases hg : l[off]? with
    | none => simp only [hg] at h; cases h
    | some c =>
      simp only [hg] at h
      by_cases hc : c = b
      · rw [if_pos hc] at h
        by_cases hn : off < n
        · have hgt : (l.take n)[off]? = some c := by
            rw [List.getElem?_take, if_pos hn, hg]
          simp only [hgt]
          rw [if_pos hc]
          exact ih h n (by omega)
            (by simp only [List.length_cons] at h2; omega)
        · have hgt : (l.take n)[off]? = none := by
            rw [List.getElem?_take, if_neg (by omega)]
          simp only [hgt]
      · rw [if_neg hc] at h; cases h

theorem pTag_spec (tag : List Byte) : PSpec (pTag tag) tag.length := by
  constructor
  · intro l off a o h
    unfold pTag at h
    cases hg : pTagGo tag l off with
    | ok o2 => rw [hg] at h; cases h; exact pTagGo_ok hg
    | incomplete => rw [hg] at h; cases h
    | error => rw [hg] at h; cases h
  · intro l₁ l₂ off hdep
    unfold pTag
    rw [pTagGo_dep hdep]
  · intro l off a o h n h1 h2
    unfold pTag at h ⊢
    cases hg : pTagGo tag l off with
    | ok o2 => rw [pTagGo_short hg n h1 h2]
    | incomplete => rw [hg] at h; cases h
    | error => rw [hg] at h; cases h

theorem pbind_spec {α β : Type} {P : Parser α} {f : α → Parser β} {k₁ k₂ : Nat}
    (hP : PSpec P k₁) (hf : ∀ a, PSpec (f a) k₂) : PSpec (pbind P f) (k₁ + k₂) := by
  constructor
  · intro l off b o h
    unfold pbind at h
    cases hr : P l off with
    | ok p =>
      obtain ⟨a, o1⟩ := p
      rw [hr] at h
      have h1 := hP.ok_off _ _ _ _ hr
      subst h1
      have := (hf a).ok_off _ _ _ _ h
      omega
    | incomplete => rw [hr] at h; cases h
    | error => rw [hr] at h; cases h
  · intro l₁ l₂ off hdep
    unfold pbind
    rw [hP.dep l₁ l₂ off (fun i hi => hdep i (by omega))]
    cases hr : P l₂ off with
    | ok p =>
      obtain ⟨a, o1⟩ := p
      have h1 := hP.ok_off _ _ _ _ hr
      subst h1
      exact (hf a).dep l₁ l₂ (off + k₁) (fun i hi => by
        rw [show off + k₁ + i = off + (k₁ + i) by omega]
        exact hdep (k₁ + i) (by omega))
    | incomplete => rfl
    | error => rfl
  · intro l off b o h n h1 h2
    unfold pbind at h ⊢
    cases hr : P l off with
    | ok p =>
      obtain ⟨a, o1⟩ := p
      rw [hr] at h
      have ho := hP.ok_off _ _ _ _ hr
      subst ho
      by_cases hcase : n < off + k₁
      · rw [hP.short _ _ _ _ hr n h1 hcase]
      · have hPtake : P (l.take n) off = P l off := by
          apply hP.dep
          intro i hi
          rw [List.getElem?_take, if_pos (by omega)]
        rw [hPtake, hr]
        exact (hf a).short _ _ _ _ h n (by omega) (by omega)
    | incomplete => rw [hr] at h; cases h
    | error => rw [hr] at h; cases h

theorem pU8_spec : PSpec pU8 1 := pmap_spec (pTake_spec 1)

theorem pU16_spec : PSpec pU16 2 := pmap_spec (pTake_spec 2)

theorem pU32_spec : PSpec pU32 4 := pmap_spec (pTake_spec 4)

theorem pF32_spec : PSpec pF32 4 := pmap_spec (pTake_spec 4)

theorem pI16_spec : PSpec pI16 2 := pmap_spec (pTake_spec 2)

theorem pI32_spec : PSpec pI32 4 := pmap_spec (pTake_spec 4)

theorem pI64_spec : PSpec pI64 8 := pmap_spec (pTake_spec 8)

theorem channel_header_spec : PSpec channel_header 24 := by
  have h : PSpec channel_header
      (2 + (4 + (2 + (1 + (1 + (4 + (1 + (1 + (1 + (1 + (4 + (2 + 0)))))))))))) := by
    unfold channel_header
    exact pbind_spec pU16_spec fun _ =>
      pbind_spec pI32_spec fun _ =>
      pbind_spec pI16_spec fun _ =>
      pbind_spec pU8_spec fun _ =>
      pbind_spec pU8_spec fun _ =>
      pbind_spec pF32_spec fun _ =>
      pbind_spec pU8_spec fun _ =>
      pbind_spec pU8_spec fun _ =>
      pbind_spec pU8_spec fun _ =>
      pbind_spec pU8_spec fun _ =>
      pbind_spec pI32_spec fun _ =>
      pbind_spec pI16_spec fun _ =>
      ppure_spec _
  simpa using h

theorem time_header_spec : PSpec time_header 36 := by
  have h : PSpec time_header (8 + (8 + (4 + (8 + (8 + 0))))) := by
    unfold time_header
    exact pbind_spec pI64_spec fun _ =>
      pbind_spec pI64_spec fun _ =>
      pbind_spec pF32_spec fun _ =>
      pbind_spec pI64_spec fun _ =>
      pbind_spec pI64_spec fun _ =>
      ppure_spec _
  simpa using h

theorem trigger_header_spec : PSpec trigger_header 40 := by
  have h : PSpec trigger_header
      (1 + (1 + (1 + (1 + (1 + (4 + (4 + (4 + (1 + (1 + (2 + (4 + (1 + (3 +
        (4 + (4 + (1 + (1 + (1 + 0))))))))))))))))))) := by
    unfold trigger_header
    exact pbind_spec pU8_spec fun _ =>
      pbind_spec pU8_spec fun _ =>
      pbind_spec pU8_spec fun _ =>
      pbind_spec pU8_spec fun _ =>
      pbind_spec (pTake_spec 1) fun _ =>
      pbind_spec pF32_spec fun _ =>
      pbind_spec pF32_spec fun _ =>
      pbind_spec pF32_spec fun _ =>
      pbind_spec pU8_spec fun _ =>
      pbind_spec pU8_spec fun _ =>
      pbind_spec (pTake_spec 2) fun _ =>
      pbind_spec pF32_spec fun _ =>
      pbind_spec pU8_spec fun _ =>
      pbind_spec (pTake_spec 3) fun _ =>
      pbind_spec pF32_spec fun _ =>
      pbind_spec pF32_spec fun _ =>
      pbind_spec pU8_spec fun _ =>
      pbind_spec pU8_spec fun _ =>
      pbind_spec pU8_spec fun _ =>
      pofOption_spec _
  simpa using h

theorem logic_analyzer_header_spec : PSpec logic_analyzer_header 22 := by
  have h : PSpec logic_analyzer_header (1 + (1 + (2 + (16 + (1 + (1 + 0)))))) := by
    unfold logic_analyzer_header
    exact pbind_spec pU8_spec fun _ =>
      pbind_spec pU8_spec fun _ =>
      pbind_spec pU16_spec fun _ =>
      pbind_spec (pTake_spec 16) fun _ =>
      pbind_spec pU8_spec fun _ =>
      pbind_spec pU8_spec fun _ =>
      ppure_spec _
  simpa using h

theorem waveform_header_spec : PSpec waveform_header 273 := by
  have h : PSpec waveform_header
      (magicTag.length + (12 + (1 + (3 + (4 + (4 + (4 + (1 + (1 + (24 + (24 +
        (1 + (1 + (36 + (22 + (1 + (40 + (40 + (6 + (4 + (36 + (4 +
        0)))))))))))))))))))))) := by
    unfold waveform_header
    exact pbind_spec (pTag_spec magicTag) fun _ =>
      pbind_spec (pTake_spec 12) fun _ =>
      pbind_spec pU8_spec fun _ =>
      pbind_spec (pTake_spec 3) fun _ =>
      pbind_spec pU32_spec fun _ =>
      pbind_spec (pTake_spec 4) fun _ =>
      pbind_spec pU32_spec fun _ =>
      pbind_spec pU8_spec fun _ =>
      pbind_spec (pTake_spec 1) fun _ =>
      pbind_spec channel_header_spec fun _ =>
      pbind_spec channel_header_spec fun _ =>
      pbind_spec pU8_spec fun _ =>
      pbind_spec (pTake_spec 1) fun _ =>
      pbind_spec time_header_spec fun _ =>
      pbind_spec logic_analyzer_header_spec fun _ =>
      pbind_spec pU8_spec fun _ =>
      pbind_spec trigger_header_spec fun _ =>
      pbind_spec trigger_header_spec fun _ =>
      pbind_spec (pTake_spec 6) fun _ =>
      pbind_spec pU32_spec fun _ =>
      pbind_spec time_header_spec fun _ =>
      pbind_spec pF32_spec fun _ =>
      pofOption_spec _
  simpa [magicTag] using h

theorem pbind_ok {α β : Type} {P : Parser α} {f : α → Parser β} {l : List Byte}
    {off : Nat} {b : β} {o2 : Nat} (h : pbind P f l off = .ok (b, o2)) :
    ∃ a o1, P l off = .ok (a, o1) ∧ f a l o1 = .ok (b, o2) := by
  unfold pbind at h
  cases hr : P l off with
  | ok p =>
    obtain ⟨a, o1⟩ := p
    rw [hr] at h
    exact ⟨a, o1, rfl, h⟩
  | incomplete => rw [hr] at h; cases h
  | error => rw [hr] at h; cases h

theorem ppure_ok {α : Type} {a b : α} {l : List Byte} {off o : Nat}
    (h : ppure a l off = .ok (b, o)) : b = a ∧ o = off := by
  unfold ppure at h
  cases h
  exact ⟨rfl, rfl⟩

theorem pofOption_ok {α : Type} {o : Option α} {l : List Byte} {off : Nat}
    {a : α} {o2 : Nat} (h : pofOption o l off = .ok (a, o2)) :
    o = some a ∧ o2 = off := by
  cases o with
  | some x =>
    have h2 : ppure x l off = .ok (a, o2) := h
    obtain ⟨h3, h4⟩ := ppure_ok h2
    rw [h3]
    exact ⟨rfl, h4⟩
  | none => cases h

theorem pmap_ok {α β : Type} {f : α → β} {P : Parser α} {l : List Byte}
    {off : Nat} {b : β} {o : Nat} (h : pmap f P l off = .ok (b, o)) :
    ∃ a, P l off = .ok (a, o) ∧ b = f a := by
  unfold pmap at h
  cases hr : P l off with
  | ok p =>
    obtain ⟨a, o0⟩ := p
    rw [hr] at h
    cases h
    exact ⟨a, rfl, rfl⟩
  | incomplete => rw [hr] at h; cases h
  | error => rw [hr] at h; cases h

theorem pTake_ok {k : Nat} {l : List Byte} {off : Nat} {bs : List Byte} {o : Nat}
    (h : pTake k l off = .ok (bs, o)) :
    readBytes l off k = some bs ∧ o = off + k := by
  unfold pTake at h
  cases hr : readBytes l off k with
  | some bs2 => rw [hr] at h; cases h; exact ⟨rfl, rfl⟩
  | none => rw [hr] at h; cases h

theorem pU32_ok_lt {l : List Byte} {off v o : Nat} (h : pU32 l off = .ok (v, o)) :
    v < 4294967296 := by
  obtain ⟨bs, hbs, hv⟩ := pmap_ok h
  obtain ⟨hr, _⟩ := pTake_ok hbs
  have h4 := readBytes_length hr
  have hlt := leVal_lt bs
  rw [h4] at hlt
  subst hv
  simpa using hlt

theorem pU8_ok_get {l : List Byte} {off v o : Nat} (h : pU8 l off = .ok (v, o)) :
    ∃ b : Byte, l[off]? = some b ∧ v = b.val ∧ o = off + 1 := by
  obtain ⟨bs, hbs, hv⟩ := pmap_ok h
  obtain ⟨hr, ho⟩ := pTake_ok hbs
  unfold readBytes at hr
  cases hg : l[off]? with
  | some b =>
    rw [hg] at hr
    simp [readBytes] at hr
    refine ⟨b, rfl, ?_, ho⟩
    rw [hv, ← hr]
    simp [leVal]
  | none => rw [hg] at hr; cases hr

theorem pbind_eval {α β : Type} {P : Parser α} {f : α → Parser β}
    {l : List Byte} {off : Nat} {a : α} {o : Nat} (h : P l off = .ok (a, o)) :
    pbind P f l off = f a l o := by
  unfold pbind
  rw [h]

theorem pmap_eval {α β : Type} {f : α → β} {P : Parser α} {l : List Byte}
    {off : Nat} {a : α} {o : Nat} (h : P l off = .ok (a, o)) :
    pmap f P l off = .ok (f a, o) := by
  unfold pmap
  rw [h]

theorem pTake_eval {l : List Byte} {off k : Nat} (h : off + k ≤ l.length) :
    pTake k l off = .ok ((l.drop off).take k, off + k) := by
  unfold pTake
  rw [readBytes_of_le h]

theorem triggerModeTryFrom_le {n : Nat} {v : TriggerMode}
    (h : TriggerMode.tryFrom n = some v) : n ≤ 6 := by
  unfold TriggerMode.tryFrom at h
  by_cases hc : n ≤ 6
  · exact hc
  · rw [if_neg hc] at h; cases h

theorem sourceTryFrom_le {n : Nat} {v : Source}
    (h : Source.tryFrom n = some v) : n ≤ 5 := by
  unfold Source.tryFrom at h
  by_cases hc : n ≤ 5
  · exact hc
  · rw [if_neg hc] at h; cases h

theorem couplingTryFrom_le {n : Nat} {v : Coupling}
    (h : Coupling.tryFrom n = some v) : n ≤ 2 := by
  unfold Coupling.tryFrom at h
  by_cases hc : n ≤ 2
  · exact hc
  · rw [if_neg hc] at h; cases h

theorem mkWaveformHeader_some {adc roll raw1 act : Nat} {ch1 ch2 : ChannelHeader}
    {toff : Nat} {time : TimeHeader} {la : LogicAnalyzerHeader} {sel : Nat}
    {tr1 tr2 : TriggerHeader} {raw2 : Nat} {time2 : TimeHeader} {lsr : Nat}
    {h : WaveformHeader}
    (H : mkWaveformHeader adc roll raw1 act ch1 ch2 toff time la sel tr1 tr2
      raw2 time2 lsr = some h) :
    sel ≤ 6 ∧ h.roll_stop = roll ∧ h.ch1 = ch1 ∧
    h.ch1_points = (rollDerive roll raw1).1 ∧
    h.ch1_skip = (rollDerive roll raw1).2 ∧
    h.ch2_points = (if ch1.enabled ∧ raw2 = 0 then (rollDerive roll raw1).1 else raw2) := by
  unfold mkWaveformHeader at H
  cases htm : TriggerMode.tryFrom sel with
  | none => rw [htm] at H; cases H
  | some tm =>
    rw [htm] at H
    have hsel : sel ≤ 6 := triggerModeTryFrom_le htm
    cases H
    exact ⟨hsel, rfl, rfl, rfl, rfl, rfl⟩

theorem mkTriggerHeader_bounds {mode source coupling sweep sens holdoff level
    direct pulse_type pulse_width slope_type lower slope_width video_pol
    video_sync video_std : Nat} {t : TriggerHeader}
    (H : mkTriggerHeader mode source coupling sweep sens holdoff level direct
      pulse_type pulse_width slope_type lower slope_width video_pol video_sync
      video_std = some t) :
    mode ≤ 6 ∧ source ≤ 5 ∧ coupling ≤ 2 := by
  unfold mkTriggerHeader at H
  cases h1 : TriggerMode.tryFrom mode with
  | none => rw [h1] at H; cases H
  | some m =>
    cases h2 : Source.tryFrom source with
    | none => rw [h1, h2] at H; cases H
    | some s =>
      cases h3 : Coupling.tryFrom coupling with
      | none => rw [h1, h2, h3] at H; cases H
      | some c =>
        exact ⟨triggerModeTryFrom_le h1, sourceTryFrom_le h2, couplingTryFrom_le h3⟩

theorem trigger_header_ok_elim {l : List Byte} {off : Nat} {t : TriggerHeader}
    {e : Nat} (H : trigger_header l off = .ok (t, e)) :
    ∃ m s c : Nat,
      pU8 l off = .ok (m, off + 1) ∧ pU8 l (off + 1) = .ok (s, off + 2) ∧
      pU8 l (off + 2) = .ok (c, off + 3) ∧ m ≤ 6 ∧ s ≤ 5 ∧ c ≤ 2 := by
  unfold trigger_header at H
  obtain ⟨m, o1, hm, H⟩ := pbind_ok H
  obtain rfl : o1 = off + 1 := by have := pU8_spec.ok_off _ _ _ _ hm; omega
  obtain ⟨s, o2, hs, H⟩ := pbind_ok H
  obtain rfl : o2 = off + 2 := by have := pU8_spec.ok_off _ _ _ _ hs; omega
  obtain ⟨c, o3, hc, H⟩ := pbind_ok H
  obtain rfl : o3 = off + 3 := by have := pU8_spec.ok_off _ _ _ _ hc; omega
  obtain ⟨_, _, _, H⟩ := pbind_ok H
  obtain ⟨_, _, _, H⟩ := pbind_ok H
  obtain ⟨_, _, _, H⟩ := pbind_ok H
  obtain ⟨_, _, _, H⟩ := pbind_ok H
  obtain ⟨_, _, _, H⟩ := pbind_ok H
  obtain ⟨_, _, _, H⟩ := pbind_ok H
  obtain ⟨_, _, _, H⟩ := pbind_ok H
  obtain ⟨_, _, _, H⟩ := pbind_ok H
  obtain ⟨_, _, _, H⟩ := pbind_ok H
  obtain ⟨_, _, _, H⟩ := pbind_ok H
  obtain ⟨_, _, _, H⟩ := pbind_ok H
  obtain ⟨_, _, _, H⟩ := pbind_ok H
  obtain ⟨_, _, _, H⟩ := pbind_ok H
  obtain ⟨_, _, _, H⟩ := pbind_ok H
  obtain ⟨_, _, _, H⟩ := pbind_ok H
  obtain ⟨_, _, _, H⟩ := pbind_ok H
  obtain ⟨hmk, _⟩ := pofOption_ok H
  obtain ⟨hb1, hb2, hb3⟩ := mkTriggerHeader_bounds hmk
  exact ⟨m, s, c, hm, hs, hc, hb1, hb2, hb3⟩

theorem channel_header_ok_shape {l : List Byte} {off : Nat} {ch : ChannelHeader}
    {e : Nat} (H : channel_header l off = .ok (ch, e)) :
    ∃ sd shd pv inv en invd sm shm,
      ch = mkChannelHeader sd shd pv inv en invd sm shm := by
  unfold channel_header at H
  obtain ⟨_, _, _, H⟩ := pbind_ok H
  obtain ⟨sd, _, _, H⟩ := pbind_ok H
  obtain ⟨shd, _, _, H⟩ := pbind_ok H
  obtain ⟨_, _, _, H⟩ := pbind_ok H
  obtain ⟨_, _, _, H⟩ := pbind_ok H
  obtain ⟨pv, _, _, H⟩ := pbind_ok H
  obtain ⟨inv, _, _, H⟩ := pbind_ok H
  obtain ⟨en, _, _, H⟩ := pbind_ok H
  obtain ⟨invd, _, _, H⟩ := pbind_ok H
  obtain ⟨_, _, _, H⟩ := pbind_ok H
  obtain ⟨sm, _, _, H⟩ := pbind_ok H
  obtain ⟨shm, _, _, H⟩ := pbind_ok H
  obtain ⟨h1, _⟩ := ppure_ok H
  exact ⟨sd, shd, pv, inv, en, invd, sm, shm, h1⟩

theorem waveform_header_ok_elim {l : List Byte} {h : WaveformHeader} {e : Nat}
    (H : waveform_header l 0 = .ok (h, e)) :
    e = 273 ∧ ∃ roll raw1 sel raw2,
      pU32 l 20 = .ok (roll, 24) ∧ pU32 l 28 = .ok (raw1, 32) ∧
      pU8 l 142 = .ok (sel, 143) ∧ pU32 l 229 = .ok (raw2, 233) ∧
      sel ≤ 6 ∧ h.roll_stop = roll ∧
      h.ch1_points = (rollDerive roll raw1).1 ∧
      h.ch1_skip = (rollDerive roll raw1).2 ∧
      h.ch2_points = (if h.ch1.enabled ∧ raw2 = 0 then h.ch1_points else raw2) := by
  have he : e = 273 := by
    have := waveform_header_spec.ok_off _ _ _ _ H
    omega
  refine ⟨he, ?_⟩
  unfold waveform_header at H
  obtain ⟨_m, o1, h1, H⟩ := pbind_ok H
  obtain rfl : o1 = 4 := by
    have := (pTag_spec magicTag).ok_off _ _ _ _ h1
    simpa [magicTag] using this
  obtain ⟨_p1, o2, h2, H⟩ := pbind_ok H
  obtain rfl : o2 = 16 := by have := (pTake_spec 12).ok_off _ _ _ _ h2; omega
  obtain ⟨adc, o3, h3, H⟩ := pbind_ok H
  obtain rfl : o3 = 17 := by have := pU8_spec.ok_off _ _ _ _ h3; omega
  obtain ⟨_p2, o4, h4, H⟩ := pbind_ok H
  obtain rfl : o4 = 20 := by have := (pTake_spec 3).ok_off _ _ _ _ h4; omega
  obtain ⟨roll, o5, hRoll, H⟩ := pbind_ok H
  obtain rfl : o5 = 24 := by have := pU32_spec.ok_off _ _ _ _ hRoll; omega
  obtain ⟨_un, o6, h6, H⟩ := pbind_ok H
  obtain rfl : o6 = 28 := by have := (pTake_spec 4).ok_off _ _ _ _ h6; omega
  obtain ⟨raw1, o7, hRaw1, H⟩ := pbind_ok H
  obtain rfl : o7 = 32 := by have := pU32_spec.ok_off _ _ _ _ hRaw1; omega
  obtain ⟨act, o8, h8, H⟩ := pbind_ok H
  obtain rfl : o8 = 33 := by have := pU8_spec.ok_off _ _ _ _ h8; omega
  obtain ⟨_p3, o9, h9, H⟩ := pbind_ok H
  obtain rfl : o9 = 34 := by have := (pTake_spec 1).ok_off _ _ _ _ h9; omega
  obtain ⟨ch1v, o10, h10, H⟩ := pbind_ok H
  obtain rfl : o10 = 58 := by have := channel_header_spec.ok_off _ _ _ _ h10; omega
  obtain ⟨ch2v, o11, h11, H⟩ := pbind_ok H
  obtain rfl : o11 = 82 := by have := channel_header_spec.ok_off _ _ _ _ h11; omega
  obtain ⟨toff, o12, h12, H⟩ := pbind_ok H
  obtain rfl : o12 = 83 := by have := pU8_spec.ok_off _ _ _ _ h12; omega
  obtain ⟨_p4, o13, h13, H⟩ := pbind_ok H
  obtain rfl : o13 = 84 := by have := (pTake_spec 1).ok_off _ _ _ _ h13; omega
  obtain ⟨timev, o14, h14, H⟩ := pbind_ok H
  obtain rfl : o14 = 120 := by have := time_header_spec.ok_off _ _ _ _ h14; omega
  obtain ⟨lav, o15, h15, H⟩ := pbind_ok H
  obtain rfl : o15 = 142 := by
    have := logic_analyzer_header_spec.ok_off _ _ _ _ h15; omega
  obtain ⟨sel, o16, hSel, H⟩ := pbind_ok H
  obtain rfl : o16 = 143 := by have := pU8_spec.ok_off _ _ _ _ hSel; omega
  obtain ⟨tr1, o17, h17, H⟩ := pbind_ok H
  obtain rfl : o17 = 183 := by have := trigger_header_spec.ok_off _ _ _ _ h17; omega
  obtain ⟨tr2, o18, h18, H⟩ := pbind_ok H
  obtain rfl : o18 = 223 := by have := trigger_header_spec.ok_off _ _ _ _ h18; omega
  obtain ⟨_p5, o19, h19, H⟩ := pbind_ok H
  obtain rfl : o19 = 229 := by have := (pTake_spec 6).ok_off _ _ _ _ h19; omega
  obtain ⟨raw2, o20, hRaw2, H⟩ := pbind_ok H
  obtain rfl : o20 = 233 := by have := pU32_spec.ok_off _ _ _ _ hRaw2; omega
  obtain ⟨time2v, o21, h21, H⟩ := pbind_ok H
  obtain ⟨lsr, o22, h22, H⟩ := pbind_ok H
  obtain ⟨hmk, _⟩ := pofOption_ok H
  obtain ⟨hsel, hrs, hch1, hp, hk, hc2⟩ := mkWaveformHeader_some hmk
  refine ⟨roll, raw1, sel, raw2, hRoll, hRaw1, hSel, hRaw2, hsel, hrs, hp, hk, ?_⟩
  rw [hch1, hp]
  exact hc2

theorem rollDerive_zero {raw : Nat} (h4 : 4 ≤ raw) (hlt : raw < 4294967296) :
    rollDerive 0 raw = (raw - 4, 0) := by
  have e1 : u32sub raw 4 = raw - 4 := by unfold u32sub; omega
  unfold rollDerive
  rw [if_pos rfl, e1]

theorem rollDerive_pos {roll raw : Nat} (h0 : roll ≠ 0) (h6 : roll + 6 ≤ raw)
    (hlt : raw < 4294967296) :
    rollDerive roll raw = (raw - roll - 6, roll + 2) := by
  unfold rollDerive u32sub u32add
  rw [if_neg h0]
  have e1 : (raw + 4294967296 - roll) % 4294967296 = raw - roll := by omega
  rw [e1]
  have e2 : (raw - roll + 4294967296 - 6) % 4294967296 = raw - roll - 6 := by omega
  rw [e2]
  have e3 : (roll + 2) % 4294967296 = roll + 2 := by omega
  rw [e3]

/-- Claim C1: for every buffer whose header parses successfully, the derived
fields satisfy the rolling-mode rule: with `roll_stop = 0`, `ch1_points` is
the raw on-disk ch1 point count minus 4 and `ch1_skip` is 0; otherwise
`ch1_points` is the raw count minus `roll_stop` minus 6 and `ch1_skip` is
`roll_stop + 2` (exact integer subtraction under the stated no-underflow side
conditions; the witness instantiates the spec's two numeric examples). -/
theorem rolling_mode_rule : ∀ (l : List Byte) (h : WaveformHeader) (e raw : Nat),
    waveform_header l 0 = .ok (h, e) → readU32 l 28 = some raw →
    ((h.roll_stop = 0 → 4 ≤ raw → h.ch1_points = raw - 4 ∧ h.ch1_skip = 0) ∧
     (h.roll_stop ≠ 0 → h.roll_stop + 6 ≤ raw →
       h.ch1_points = raw - h.roll_stop - 6 ∧ h.ch1_skip = h.roll_stop + 2)) := by
  intro l h e raw H hread
  obtain ⟨he, roll, raw1, sel, raw2, hRoll, hRaw1, hSel, hRaw2, hsel, hrs, hp, hk, hc2⟩ :=
    waveform_header_ok_elim H
  have hr1 : readU32 l 28 = some raw1 := by unfold readU32; rw [hRaw1]
  rw [hread] at hr1
  obtain rfl : raw = raw1 := Option.some.inj hr1
  have hlt1 : raw < 4294967296 := pU32_ok_lt hRaw1
  have hltR : roll < 4294967296 := pU32_ok_lt hRoll
  constructor
  · intro h0 h4
    have hr0 : roll = 0 := by omega
    subst hr0
    constructor
    · rw [hp, rollDerive_zero h4 hlt1]
    · rw [hk, rollDerive_zero h4 hlt1]
  · intro h0 h6
    rw [hrs] at h0 h6
    constructor
    · rw [hp, hrs, rollDerive_pos h0 h6 hlt1]
    · rw [hk, hrs, rollDerive_pos h0 h6 hlt1]

/-- Witness for C1 at the spec's two numeric instances: `roll_stop = 0`,
raw count 524288 gives (524284, 0); `roll_stop = 100`, raw count 524288 gives
(524182, 102). -/
theorem rolling_mode_rule_witness :
    (headerOf bufRoll0).map (fun h => (h.ch1_points, h.ch1_skip)) = some (524284, 0) ∧
    (headerOf bufRoll100).map (fun h => (h.ch1_points, h.ch1_skip)) = some (524182, 102) := by
  constructor
  · cases hE : waveform_header bufRoll0 0 with
    | ok p =>
      obtain ⟨h, e⟩ := p
      have hrule := rolling_mode_rule bufRoll0 h e 524288 hE (by decide)
      have hroll : h.roll_stop = 0 := by
        have hm : (headerOf bufRoll0).map (fun x => x.roll_stop) = some 0 := by decide
        unfold headerOf at hm
        rw [hE] at hm
        simpa using hm
      obtain ⟨hp, hk⟩ := hrule.1 hroll (by omega)
      unfold headerOf
      rw [hE]
      simp [hp, hk]
    | incomplete =>
      have hT : headerOf bufRoll0 ≠ none := by decide
      unfold headerOf at hT
      rw [hE] at hT
      simp at hT
    | error =>
      have hT : headerOf bufRoll0 ≠ none := by decide
      unfold headerOf at hT
      rw [hE] at hT
      simp at hT
  · cases hE : waveform_header bufRoll100 0 with
    | ok p =>
      obtain ⟨h, e⟩ := p
      have hrule := rolling_mode_rule bufRoll100 h e 524288 hE (by decide)
      have hroll : h.roll_stop = 100 := by
        have hm : (headerOf bufRoll100).map (fun x => x.roll_stop) = some 100 := by decide
        unfold headerOf at hm
        rw [hE] at hm
        simpa using hm
      obtain ⟨hp, hk⟩ := hrule.2 (by omega) (by omega)
      unfold headerOf
      rw [hE]
      simp [hp, hk, hroll]
    | incomplete =>
      have hT : headerOf bufRoll100 ≠ none := by decide
      unfold headerOf at hT
      rw [hE] at hT
      simp at hT
    | error =>
      have hT : headerOf bufRoll100 ≠ none := by decide
      unfold headerOf at hT
      rw [hE] at hT
      simp at hT

/-- Claim C3: for every successfully parsed header, `ch2_points` equals the
already-derived `ch1_points` when ch1 is enabled and the raw on-disk ch2
count is 0, and equals the raw ch2 count in every other case; in particular a
raw ch2 count of 300000 always yields `ch2_points = 300000`. -/
theorem ch2_points_inference : ∀ (l : List Byte) (h : WaveformHeader) (e raw2 : Nat),
    waveform_header l 0 = .ok (h, e) → readU32 l 229 = some raw2 →
    ((h.ch1.enabled = true → raw2 = 0 → h.ch2_points = h.ch1_points) ∧
     (h.ch1.enabled = false → h.ch2_points = raw2) ∧
     (raw2 ≠ 0 → h.ch2_points = raw2) ∧
     (raw2 = 300000 → h.ch2_points = 300000)) := by
  intro l h e raw2 H hread
  obtain ⟨he, roll, raw1, sel, r2, hRoll, hRaw1, hSel, hRaw2, hsel, hrs, hp, hk, hc2⟩ :=
    waveform_header_ok_elim H
  have hr1 : readU32 l 229 = some r2 := by unfold readU32; rw [hRaw2]
  rw [hread] at hr1
  obtain rfl : raw2 = r2 := Option.some.inj hr1
  refine ⟨?_, ?_, ?_, ?_⟩
  · intro hen h0
    rw [hc2, if_pos ⟨hen, h0⟩]
  · intro hen
    rw [hc2, if_neg]
    rintro ⟨ha, _⟩
    rw [hen] at ha
    cases ha
  · intro h0
    rw [hc2, if_neg]
    rintro ⟨_, hb⟩
    exact h0 hb
  · intro h3
    subst h3
    rw [hc2, if_neg]
    rintro ⟨_, hb⟩
    cases hb

/-- Witness for C3: a header with ch1 enabled and raw ch2 count 300000 gets
`ch2_points = 300000`; one with ch1 enabled and raw ch2 count 0 inherits the
derived `ch1_points` (here 6). -/
theorem ch2_points_inference_witness :
    (headerOf bufCh2NonZero).map (fun h => h.ch2_points) = some 300000 ∧
    (headerOf bufCh2Zero).map (fun h => (h.ch2_points, h.ch1_points)) = some (6, 6) := by
  constructor
  · cases hE : waveform_header bufCh2NonZero 0 with
    | ok p =>
      obtain ⟨h, e⟩ := p
      have hrule := ch2_points_inference bufCh2NonZero h e 300000 hE (by decide)
      have h2 := hrule.2.2.2 rfl
      unfold headerOf
      rw [hE]
      simp [h2]
    | incomplete =>
      have hT : headerOf bufCh2NonZero ≠ none := by decide
      unfold headerOf at hT
      rw [hE] at hT
      simp at hT
    | error =>
      have hT : headerOf bufCh2NonZero ≠ none := by decide
      unfold headerOf at hT
      rw [hE] at hT
      simp at hT
  · cases hE : waveform_header bufCh2Zero 0 with
    | ok p =>
      obtain ⟨h, e⟩ := p
      have hrule := ch2_points_inference bufCh2Zero h e 0 hE (by decide)
      have hen : h.ch1.enabled = true := by
        have hm : (headerOf bufCh2Zero).map (fun x => x.ch1.enabled) = some true := by decide
        unfold headerOf at hm
        rw [hE] at hm
        simpa using hm
      have hp1 : h.ch1_points = 6 := by
        have hm : (headerOf bufCh2Zero).map (fun x => x.ch1_points) = some 6 := by decide
        unfold headerOf at hm
        rw [hE] at hm
        simpa using hm
      have h2 := hrule.1 hen rfl
      unfold headerOf
      rw [hE]
      simp [h2, hp1]
    | incomplete =>
      have hT : headerOf bufCh2Zero ≠ none := by decide
      unfold headerOf at hT
      rw [hE] at hT
      simp at hT
    | error =>
      have hT : headerOf bufCh2Zero ≠ none := by decide
      unfold headerOf at hT
      rw [hE] at hT
      simp at hT

/-- Claim C5 (code bug evidence): on a buffer with `roll_stop = 0` and raw
ch1 point count 3 the rolling-mode subtraction underflows; the code does not
fail — under release semantics the `u32` subtraction wraps and the parse
SUCCEEDS with `ch1_points = 2^32 - 1` (a debug build would abort on the
overflow check instead; no ArithmeticUnderflow error exists anywhere). -/
theorem underflow_wraps_eval :
    (headerOf bufUnderflow).map (fun h => h.ch1_points) = some 4294967295 ∧
    (parse bufUnderflow).isOk = true := by
  constructor
  · decide
  · decide

/-- Counterexample to claim C7 as stated: on a valid buffer the header
decoder consumes 273 bytes, not 276 (and the parse succeeds, so the run is
not vacuous).  The three bytes at offsets 273–275 are read by neither stage. -/
theorem header_length_counterexample :
    (parse bufBase).isOk = true ∧ consumedOf bufBase = 273 ∧ bufBase.length = 276 := by
  refine ⟨by decide, by decide, by decide⟩

/-- Claim C7 (amended): the header decoder consumes exactly 273 bytes of any
buffer it accepts (the raw sample extractor then starts at byte offset 276 by
construction of `parse`, leaving offsets 273–275 unread). -/
theorem header_consumes_273 : ∀ (l : List Byte) (h : WaveformHeader) (e : Nat),
    waveform_header l 0 = .ok (h, e) → e = 273 ∧ 273 ≤ l.length := by
  intro l h e H
  have he := waveform_header_spec.ok_off _ _ _ _ H
  refine ⟨by omega, ?_⟩
  by_contra hc
  push_neg at hc
  have hs := waveform_header_spec.short _ _ _ _ H l.length (by omega) (by omega)
  rw [List.take_length] at hs
  rw [H] at hs
  cases hs

/-- Witness for the amended C7 on the concrete valid buffer. -/
theorem header_consumes_273_witness :
    consumedOf bufBase = 273 ∧ 273 ≤ bufBase.length := by
  cases hE : waveform_header bufBase 0 with
  | ok p =>
    obtain ⟨h, e⟩ := p
    obtain ⟨h1, h2⟩ := header_consumes_273 bufBase h e hE
    subst h1
    constructor
    · unfold consumedOf
      rw [hE]
    · exact h2
  | incomplete =>
    have hT : headerOf bufBase ≠ none := by decide
    unfold headerOf at hT
    rw [hE] at hT
    simp at hT
  | error =>
    have hT : headerOf bufBase ≠ none := by decide
    unfold headerOf at hT
    rw [hE] at hT
    simp at hT

/-- Claim C9: an input whose trigger-mode selector byte (offset 142) exceeds
6 can never parse successfully — the selector is validated through the
`TriggerMode` conversion inside the map_opt closure even though it is not
stored — and the failure is a returned error, never a panic. -/
theorem trigger_selector_validated : ∀ (l : List Byte) (b : Byte),
    l[142]? = some b → 6 < b.val → (parse l).isErr = true := by
  intro l b hb h6
  unfold parse
  cases hE : waveform_header l 0 with
  | ok p =>
    obtain ⟨h, e⟩ := p
    exfalso
    obtain ⟨_, roll, raw1, sel, raw2, _, _, hSel, _, hsel, _⟩ :=
      waveform_header_ok_elim hE
    obtain ⟨b2, hb2, hv, _⟩ := pU8_ok_get hSel
    rw [hb] at hb2
    obtain rfl : b = b2 := Option.some.inj hb2
    omega
  | incomplete => rfl
  | error => rfl

/-- Witness for C9 at selector byte 7. -/
theorem trigger_selector_validated_witness : (parse bufBadSel).isErr = true :=
  trigger_selector_validated bufBadSel 7 (by decide) (by decide)

/-- Claim C10: two equal-length buffers that agree everywhere except at byte
offsets 273, 274, 275 (equivalently: equal first 273 bytes, equal length and
equal suffix from offset 276) produce identical parse results — those three
bytes lie in the gap between the 273 bytes the header decoder reads and the
offset 276 where sample extraction starts. -/
theorem gap_bytes_no_influence : ∀ l₁ l₂ : List Byte,
    l₁.length = l₂.length → l₁.take 273 = l₂.take 273 →
    l₁.drop 276 = l₂.drop 276 → parse l₁ = parse l₂ := by
  intro l₁ l₂ hlen htake hdrop
  have hwh : waveform_header l₁ 0 = waveform_header l₂ 0 := by
    apply waveform_header_spec.dep
    intro i hi
    have e0 : 0 + i = i := by omega
    rw [e0]
    have h1 : (l₁.take 273)[i]? = l₁[i]? := by
      rw [List.getElem?_take, if_pos hi]
    have h2 : (l₂.take 273)[i]? = l₂[i]? := by
      rw [List.getElem?_take, if_pos hi]
    rw [← h1, ← h2, htake]
  unfold parse
  rw [hwh, hlen, hdrop]

/-- Witness for C10: `bufBase` and `bufGap7` differ exactly at offsets
273–275 yet parse identically. -/
theorem gap_bytes_no_influence_witness : parse bufBase = parse bufGap7 :=
  gap_bytes_no_influence bufBase bufGap7 (by decide) (by decide) (by decide)

/-- Counterexample to claim C8 as stated: truncating the valid buffer
`bufBase` to 273 bytes (a position inside the claimed 276-byte header
region) makes the header decode succeed and the payload slice
`&input[276..]` abort with an out-of-bounds panic — the function neither
returns a Truncated error nor any error result there. -/
theorem truncation_panic_counterexample :
    (parse bufBase).isOk = true ∧ parse (bufBase.take 273) = .panic := by
  refine ⟨by decide, by decide⟩

/-- Claim C8 (amended): truncating a valid input to fewer than 273 bytes
makes `parse` return the Truncated (incomplete) error; truncating it to 273,
274 or 275 bytes makes the header succeed and the slice at offset 276 panic,
aborting instead of returning an error. -/
theorem truncation_amended : ∀ (v : List Byte) (w : WaveformData),
    parse v = .ok w →
    (∀ n, n < 273 → parse (v.take n) = .err .headerIncomplete) ∧
    (∀ n, 273 ≤ n → n < 276 → parse (v.take n) = .panic) := by
  intro v w hok
  unfold parse at hok
  cases hE : waveform_header v 0 with
  | ok p =>
    obtain ⟨h, e⟩ := p
    rw [hE] at hok
    constructor
    · intro n hn
      have hshort := waveform_header_spec.short _ _ _ _ hE n (by omega) (by omega)
      unfold parse
      rw [hshort]
    · intro n h273 h276
      by_cases hlen : 276 ≤ v.length
      · have hdep : waveform_header (v.take n) 0 = waveform_header v 0 := by
          apply waveform_header_spec.dep
          intro i hi
          have e0 : 0 + i = i := by omega
          rw [e0, List.getElem?_take, if_pos (by omega)]
        unfold parse
        rw [hdep, hE]
        have hlen2 : (v.take n).length = n := by
          rw [List.length_take]
          omega
        simp only [hlen2]
        rw [if_neg (show ¬ 276 ≤ n by omega)]
      · simp only [] at hok
        rw [if_neg hlen] at hok
        cases hok
  | incomplete => rw [hE] at hok; cases hok
  | error => rw [hE] at hok; cases hok

/-- Witness for the amended C8: one truncation strictly inside the header
bytes yields the Truncated error, one in the 273–275 gap panics. -/
theorem truncation_amended_witness :
    parse (bufBase.take 100) = .err .headerIncomplete ∧
    parse (bufBase.take 274) = .panic := by
  cases hP : parse bufBase with
  | ok w =>
    obtain ⟨hA, hB⟩ := truncation_amended bufBase w hP
    exact ⟨hA 100 (by omega), hB 274 (by omega) (by omega)⟩
  | err e =>
    have hT : (parse bufBase).isOk = true := by decide
    rw [hP] at hT
    simp [ParseOutcome.isOk] at hT
  | panic =>
    have hT : (parse bufBase).isOk = true := by decide
    rw [hP] at hT
    simp [ParseOutcome.isOk] at hT

theorem pU16_eval {l : List Byte} {off : Nat} (h : off + 2 ≤ l.length) :
    pU16 l off = .ok (leVal ((l.drop off).take 2), off + 2) := by
  unfold pU16
  rw [pmap_eval (pTake_eval h)]

theorem leWords_succ {l : List Byte} (n : Nat) (h : 2 ≤ l.length) :
    leWords (n + 1) l = leVal (l.take 2) :: leWords n (l.drop 2) := by
  cases l with
  | nil => simp at h
  | cons b0 t0 =>
    cases t0 with
    | nil => simp at h
    | cons b1 t => simp [leWords, leVal]

theorem pcount_pU16_eval {l : List Byte} {off n : Nat}
    (h : off + 2 * n ≤ l.length) :
    pcount pU16 n l off = .ok (leWords n (l.drop off), off + 2 * n) := by
  induction n generalizing off with
  | zero => simp [pcount, ppure, leWords]
  | succ n ih =>
    unfold pcount
    simp only [pbind_eval (pU16_eval (show off + 2 ≤ l.length by omega)),
               pbind_eval (ih (show off + 2 + 2 * n ≤ l.length by omega)),
               ppure]
    have h1 : leWords (n + 1) (l.drop off) =
        leVal ((l.drop off).take 2) :: leWords n ((l.drop off).drop 2) := by
      apply leWords_succ
      simp only [List.length_drop]
      omega
    have h2 : (l.drop off).drop 2 = l.drop (off + 2) := by
      rw [List.drop_drop]
    rw [h1, h2]
    have h3 : off + 2 + 2 * n = off + 2 * (n + 1) := by omega
    rw [h3]

theorem chanPart_eval {p k : Nat} {l : List Byte} {off : Nat}
    (h : off + (p + k + 4) ≤ l.length) :
    (pbind (pTake p) fun smps =>
     pbind (pTake k) fun pad =>
     pbind (pTake 4) fun sentinel => ppure (smps, pad, sentinel)) l off
    = .ok (((l.drop off).take p, (l.drop (off + p)).take k,
            (l.drop (off + p + k)).take 4), off + (p + k + 4)) := by
  simp only [pbind_eval (pTake_eval (show off + p ≤ l.length by omega)),
             pbind_eval (pTake_eval (show off + p + k ≤ l.length by omega)),
             pbind_eval (pTake_eval (show off + p + k + 4 ≤ l.length by omega)),
             ppure]
  have e4 : off + p + k + 4 = off + (p + k + 4) := by omega
  rw [e4]

theorem pcond_chan_eval {c : Bool} {p k : Nat} {l : List Byte} {off : Nat}
    (h : c = true → off + (p + k + 4) ≤ l.length) :
    pcond c (pbind (pTake p) fun smps => pbind (pTake k) fun pad =>
      pbind (pTake 4) fun sentinel => ppure (smps, pad, sentinel)) l off =
    .ok ((if c then some ((l.drop off).take p, (l.drop (off + p)).take k,
          (l.drop (off + p + k)).take 4) else none),
         off + (if c then p + k + 4 else 0)) := by
  cases c with
  | false => rfl
  | true => exact pmap_eval (chanPart_eval (h rfl))

theorem pcond_count_eval {c : Bool} {p : Nat} {l : List Byte} {off : Nat}
    (h : c = true → off + 2 * p ≤ l.length) :
    pcond c (pcount pU16 p) l off =
    .ok ((if c then some (leWords p (l.drop off)) else none),
         off + (if c then 2 * p else 0)) := by
  cases c with
  | false => rfl
  | true => exact pmap_eval (pcount_pU16_eval (h rfl))

/-- Claim C2: the raw sample extractor processes channel 1, then channel 2,
then logic, in that order.  An enabled ch1 contributes `ch1_points` sample
bytes then `ch1_skip` + 4 skipped bytes; an enabled ch2 contributes
`ch2_points` sample bytes then the SAME `ch1_skip` (not a ch2-specific value)
+ 4 skipped bytes; enabled logic contributes `ch1_points` little-endian
16-bit words; a disabled channel yields an empty container and consumes zero
bytes, so the next channel starts at the same offset.  The offsets in the
right-hand side make all of this explicit. -/
theorem raw_data_extraction : ∀ (h : WaveformHeader) (l : List Byte),
    (if h.ch1.enabled then h.ch1_points + h.ch1_skip + 4 else 0) +
      (if h.ch2.enabled then h.ch2_points + h.ch1_skip + 4 else 0) +
      (if h.logic.enabled then 2 * h.ch1_points else 0) ≤ l.length →
    raw_data h l 0 = .ok
      ({ ch1 := if h.ch1.enabled then l.take h.ch1_points else []
         ch2 := if h.ch2.enabled then
             (l.drop (if h.ch1.enabled then h.ch1_points + h.ch1_skip + 4 else 0)).take
               h.ch2_points
           else []
         logic := if h.logic.enabled then
             leWords h.ch1_points (l.drop
               ((if h.ch1.enabled then h.ch1_points + h.ch1_skip + 4 else 0) +
                (if h.ch2.enabled then h.ch2_points + h.ch1_skip + 4 else 0)))
           else [] },
       (if h.ch1.enabled then h.ch1_points + h.ch1_skip + 4 else 0) +
         (if h.ch2.enabled then h.ch2_points + h.ch1_skip + 4 else 0) +
         (if h.logic.enabled then 2 * h.ch1_points else 0)) := by
  intro h l hlen
  have hb1 : h.ch1.enabled = true →
      0 + (h.ch1_points + h.ch1_skip + 4) ≤ l.length := by
    intro hc
    rw [hc] at hlen
    simp only [if_true] at hlen
    omega
  unfold raw_data
  simp only [pbind_eval (pcond_chan_eval hb1)]
  have hb2 : h.ch2.enabled = true →
      (0 + (if h.ch1.enabled then h.ch1_points + h.ch1_skip + 4 else 0)) +
        (h.ch2_points + h.ch1_skip + 4) ≤ l.length := by
    intro hc
    rw [hc] at hlen
    simp only [if_true] at hlen
    omega
  simp only [pbind_eval (pcond_chan_eval hb2)]
  have hb3 : h.logic.enabled = true →
      ((0 + (if h.ch1.enabled then h.ch1_points + h.ch1_skip + 4 else 0)) +
        (if h.ch2.enabled then h.ch2_points + h.ch1_skip + 4 else 0)) +
        2 * h.ch1_points ≤ l.length := by
    intro hc
    rw [hc] at hlen
    simp only [if_true] at hlen
    omega
  simp only [pbind_eval (pcond_count_eval hb3), ppure]
  cases h1 : h.ch1.enabled <;> cases h2 : h.ch2.enabled <;>
    cases h3 : h.logic.enabled <;>
    simp [h1, h2, h3]

/-- Witness for C2 on a fully concrete header and 19-byte payload: ch1 gets
bytes 0–1, ch2 starts after the ch1 block of 2+1+4 bytes, logic reads 2
little-endian words after the ch2 block. -/
theorem raw_data_extraction_witness :
    raw_data testHeader testPayload 0 =
      .ok ({ ch1 := [10, 11], ch2 := [20, 21, 22], logic := [7966, 8480] }, 19) := by
  have h := raw_data_extraction testHeader testPayload (by decide)
  rw [h]
  decide

theorem f32signBit_copysign (a b : Nat) :
    f32signBit (f32copysign a b) = f32signBit b := by
  unfold f32signBit f32copysign
  have h : (a % 2 ^ 31 + 2 ^ 31 * (b / 2 ^ 31 % 2)) / 2 ^ 31 % 2 = b / 2 ^ 31 % 2 := by
    have h1 : a % 2 ^ 31 < 2 ^ 31 := Nat.mod_lt _ (by norm_num)
    have h2 : (2 : Nat) ^ 31 = 2147483648 := by norm_num
    rw [h2] at h1 ⊢
    omega
  rw [h]

/-- Counterexample to claim C4 as stated: for `scale_measured = 1000`,
`probe_value = 10.0`, `shift_measured = 50` the decoded channel has
`volt_scale = 0x39D1B718 ≈ 4.0000002e-4` and `volt_offset = 0x3CA3D70B ≈
2.0000001e-2` — not `0.004` (f32 bits `0x3B83126F`) and `0.2` (bits
`0x3E4CCCCD`) as the claim's worked example says: `1e-6·1000·10/25` is
`4e-4`, not `4e-3`, and the f32 chain lands one ulp above the correctly
rounded `4e-4`.  `volt_per_division = 10000.0` (bits `0x461C4000`) does hold. -/
theorem volt_scale_claim_counterexample :
    (match channel_header voltCh 0 with
     | .ok (ch, _) => some (ch.volt_per_division, ch.volt_scale, ch.volt_offset)
     | _ => none) = some (1176256512, 970045208, 1017370379) ∧
    (970045208 : Nat) ≠ f32lit 4 1000 ∧
    (1017370379 : Nat) ≠ f32lit 1 5 := by
  refine ⟨by decide, by decide, by decide⟩

/-- Claim C4 (amended): every decoded `ChannelHeader` satisfies
`volt_per_division = copysign(scale_measured·probe, inverted ? -1 : +1)`,
`volt_scale = 1e-6·scale_measured·probe/25` and
`volt_offset = shift_measured·volt_scale` in exact binary32 arithmetic, with
`unit = V`, and the sign bit of `volt_per_division` equals the `inverted`
flag while `volt_scale`/`volt_offset` do not depend on it; the concrete
instance `scale_measured = 1000`, `probe = 10.0`, `shift = 50` gives
`volt_per_division = ±10000.0`, `volt_scale` bits `0x39D1B718` (≈ 4.0000002e-4,
not the claimed 0.004) and `volt_offset` bits `0x3CA3D70B` (≈ 2.0000001e-2,
not the claimed 0.2). -/
theorem volt_derivation_amended : ∀ (l : List Byte) (off : Nat)
    (ch : ChannelHeader) (e : Nat),
    channel_header l off = .ok (ch, e) →
    (ch.volt_per_division =
       f32copysign (f32mul (f32ofInt ch.scale_measured) ch.probe_value)
         (if ch.inverted then f32litNeg 1 1 else f32lit 1 1) ∧
     ch.volt_scale =
       f32div (f32mul (f32mul (f32lit 1 1000000) (f32ofInt ch.scale_measured))
         ch.probe_value) (f32lit 25 1) ∧
     ch.volt_offset = f32mul (f32ofInt ch.shift_measured) ch.volt_scale ∧
     ch.unit = Unit.V ∧
     f32signBit ch.volt_per_division = ch.inverted ∧
     (ch.scale_measured = 1000 → ch.probe_value = f32lit 10 1 →
      ch.shift_measured = 50 →
       ((ch.inverted = false →
          ch.volt_per_division = f32lit 10000 1 ∧
          ch.volt_scale = 970045208 ∧ ch.volt_offset = 1017370379) ∧
        (ch.inverted = true → ch.volt_per_division = f32litNeg 10000 1)))) := by
  intro l off ch e H
  obtain ⟨sd, shd, pv, inv, en, invd, sm, shm, rfl⟩ := channel_header_ok_shape H
  refine ⟨rfl, rfl, rfl, rfl, ?_, ?_⟩
  · have e1 : (mkChannelHeader sd shd pv inv en invd sm shm).volt_per_division =
        f32copysign (f32mul (f32ofInt sm) pv)
          (if (invd != 0) then f32litNeg 1 1 else f32lit 1 1) := rfl
    have e2 : (mkChannelHeader sd shd pv inv en invd sm shm).inverted =
        (invd != 0) := rfl
    rw [e1, e2, f32signBit_copysign]
    cases hb : (invd != 0) with
    | false => decide
    | true => decide
  · intro hsm hpv hshm
    have hsm2 : sm = 1000 := hsm
    have hpv2 : pv = f32lit 10 1 := hpv
    have hshm2 : shm = 50 := hshm
    subst hsm2
    subst hpv2
    subst hshm2
    constructor
    · intro hf
      have hb : (invd != 0) = false := hf
      have e1 : (mkChannelHeader sd shd (f32lit 10 1) inv en invd 1000 50).volt_per_division =
          f32copysign (f32mul (f32ofInt 1000) (f32lit 10 1))
            (if (invd != 0) then f32litNeg 1 1 else f32lit 1 1) := rfl
      have e2 : (mkChannelHeader sd shd (f32lit 10 1) inv en invd 1000 50).volt_scale =
          f32div (f32mul (f32mul (f32lit 1 1000000) (f32ofInt 1000))
            (f32lit 10 1)) (f32lit 25 1) := rfl
      have e3 : (mkChannelHeader sd shd (f32lit 10 1) inv en invd 1000 50).volt_offset =
          f32mul (f32ofInt 50)
            (f32div (f32mul (f32mul (f32lit 1 1000000) (f32ofInt 1000))
              (f32lit 10 1)) (f32lit 25 1)) := rfl
      refine ⟨?_, ?_, ?_⟩
      · rw [e1, hb]; decide
      · rw [e2]; decide
      · rw [e3]; decide
    · intro ht
      have hb : (invd != 0) = true := ht
      have e1 : (mkChannelHeader sd shd (f32lit 10 1) inv en invd 1000 50).volt_per_division =
          f32copysign (f32mul (f32ofInt 1000) (f32lit 10 1))
            (if (invd != 0) then f32litNeg 1 1 else f32lit 1 1) := rfl
      rw [e1, hb]
      decide

/-- Witness for the amended C4 on the concrete channel block `voltCh`
(scale_measured 1000, probe 10.0, shift 50, not inverted). -/
theorem volt_derivation_amended_witness :
    (match channel_header voltCh 0 with
     | .ok (ch, _) => some (ch.volt_per_division, ch.volt_scale, ch.volt_offset, ch.unit)
     | _ => none) = some (1176256512, 970045208, 1017370379, Unit.V) := by
  cases hE : channel_header voltCh 0 with
  | ok p =>
    obtain ⟨ch, e⟩ := p
    have hthm := volt_derivation_amended voltCh 0 ch e hE
    have hsm : ch.scale_measured = 1000 := by
      have hm : (match channel_header voltCh 0 with
                 | .ok (c, _) => some c.scale_measured
                 | _ => none) = some 1000 := by decide
      rw [hE] at hm
      simpa using hm
    have hpv : ch.probe_value = f32lit 10 1 := by
      have hm : (match channel_header voltCh 0 with
                 | .ok (c, _) => some c.probe_value
                 | _ => none) = some (f32lit 10 1) := by decide
      rw [hE] at hm
      simpa using hm
    have hshm : ch.shift_measured = 50 := by
      have hm : (match channel_header voltCh 0 with
                 | .ok (c, _) => some c.shift_measured
                 | _ => none) = some 50 := by decide
      rw [hE] at hm
      simpa using hm
    have hinv : ch.inverted = false := by
      have hm : (match channel_header voltCh 0 with
                 | .ok (c, _) => some c.inverted
                 | _ => none) = some false := by decide
      rw [hE] at hm
      simpa using hm
    obtain ⟨hv1, hv2, hv3⟩ := (hthm.2.2.2.2.2 hsm hpv hshm).1 hinv
    have hvpd : ch.volt_per_division = 1176256512 := by
      rw [hv1]
      decide
    simp [hvpd, hv2, hv3, hthm.2.2.2.1]
  | incomplete =>
    have hT : (match channel_header voltCh 0 with
               | .ok (c, _) => some c.unit
               | _ => none) ≠ none := by decide
    rw [hE] at hT
    simp at hT
  | error =>
    have hT : (match channel_header voltCh 0 with
               | .ok (c, _) => some c.unit
               | _ => none) ≠ none := by decide
    rw [hE] at hT
    simp at hT

/-- Claim C6: for each enum family (Bandwidth max 4, Coupling 2, Filter 3,
Source 5, TriggerMode 6, Unit 3) conversion succeeds exactly on bytes up to
the declared maximum, yielding the variant with that ordinal, and fails on
every larger byte; consequently a trigger header whose mode, source or
coupling byte is out of range never decodes. -/
theorem enum_decoding :
    (∀ b : Fin 256,
      (b.val ≤ 4 → (Bandwidth.tryFrom b.val).map Bandwidth.toCode = some b.val) ∧
      (4 < b.val → Bandwidth.tryFrom b.val = none)) ∧
    (∀ b : Fin 256,
      (b.val ≤ 2 → (Coupling.tryFrom b.val).map Coupling.toCode = some b.val) ∧
      (2 < b.val → Coupling.tryFrom b.val = none)) ∧
    (∀ b : Fin 256,
      (b.val ≤ 3 → (Filter.tryFrom b.val).map Filter.toCode = some b.val) ∧
      (3 < b.val → Filter.tryFrom b.val = none)) ∧
    (∀ b : Fin 256,
      (b.val ≤ 5 → (Source.tryFrom b.val).map Source.toCode = some b.val) ∧
      (5 < b.val → Source.tryFrom b.val = none)) ∧
    (∀ b : Fin 256,
      (b.val ≤ 6 → (TriggerMode.tryFrom b.val).map TriggerMode.toCode = some b.val) ∧
      (6 < b.val → TriggerMode.tryFrom b.val = none)) ∧
    (∀ b : Fin 256,
      (b.val ≤ 3 → (Unit.tryFrom b.val).map Unit.toCode = some b.val) ∧
      (3 < b.val → Unit.tryFrom b.val = none)) ∧
    (∀ (l : List Byte) (off : Nat) (b : Byte), l[off]? = some b → 6 < b.val →
      ∀ t e, trigger_header l off ≠ .ok (t, e)) ∧
    (∀ (l : List Byte) (off : Nat) (b : Byte), l[off + 1]? = some b → 5 < b.val →
      ∀ t e, trigger_header l off ≠ .ok (t, e)) ∧
    (∀ (l : List Byte) (off : Nat) (b : Byte), l[off + 2]? = some b → 2 < b.val →
      ∀ t e, trigger_header l off ≠ .ok (t, e)) := by
  refine ⟨by decide, by decide, by decide, by decide, by decide, by decide,
    ?_, ?_, ?_⟩
  · intro l off b hb h6 t e H
    obtain ⟨m, s, c, hm, hs, hc, hb1, hb2, hb3⟩ := trigger_header_ok_elim H
    obtain ⟨b2, hb2g, hv, _⟩ := pU8_ok_get hm
    rw [hb] at hb2g
    obtain rfl : b = b2 := Option.some.inj hb2g
    omega
  · intro l off b hb h5 t e H
    obtain ⟨m, s, c, hm, hs, hc, hb1, hb2, hb3⟩ := trigger_header_ok_elim H
    obtain ⟨b2, hb2g, hv, _⟩ := pU8_ok_get hs
    rw [hb] at hb2g
    obtain rfl : b = b2 := Option.some.inj hb2g
    omega
  · intro l off b hb h2 t e H
    obtain ⟨m, s, c, hm, hs, hc, hb1, hb2, hb3⟩ := trigger_header_ok_elim H
    obtain ⟨b2, hb2g, hv, _⟩ := pU8_ok_get hc
    rw [hb] at hb2g
    obtain rfl : b = b2 := Option.some.inj hb2g
    omega

/-- Witness for C6: an in-range and an out-of-range conversion per the rule,
and a 40-byte block whose mode byte 7 cannot decode as a trigger header. -/
theorem enum_decoding_witness :
    (TriggerMode.tryFrom 6).map TriggerMode.toCode = some 6 ∧
    Coupling.tryFrom 3 = none ∧
    trigger_header (7 :: zeros 39) 0 ≠ .ok (testTrig, 40) := by
  refine ⟨?_, ?_, ?_⟩
  · exact (enum_decoding.2.2.2.2.1 6).1 (by omega)
  · exact (enum_decoding.2.1 3).2 (by omega)
  · exact enum_decoding.2.2.2.2.2.2.1 (7 :: zeros 39) 0 7 (by decide)
      (by decide) testTrig 40

end Rigol
